import Mathlib

/-!
Verification of the `cmmt` commit-message generator (src/main.py) against its
natural-language specification.  The Python program is shallowly embedded:
Python strings become Lean `String`s, `subprocess` calls become queries to an
explicit `World` record, and the handful of library calls (`json.loads`,
`str.strip`) are modelled as executable Lean functions faithful to their
documented behaviour on the inputs this program feeds them.
-/

/-! ## Python string primitives -/

/-- Characters for which Python `str.isspace()` holds — the set `str.strip()`
removes: the ASCII whitespace and separator controls (U+0009–U+000D,
U+001C–U+001F, U+0020), next line (U+0085), no-break space (U+00A0), Ogham
space mark (U+1680), the U+2000–U+200A spaces, line and paragraph separators
(U+2028, U+2029), narrow no-break space (U+202F), medium mathematical space
(U+205F) and ideographic space (U+3000). -/
def isPySpace (c : Char) : Bool :=
  c.toNat = 0x20 || (0x9 ≤ c.toNat && c.toNat ≤ 0xD) ||
    (0x1C ≤ c.toNat && c.toNat ≤ 0x1F) || c.toNat = 0x85 || c.toNat = 0xA0 ||
    c.toNat = 0x1680 || (0x2000 ≤ c.toNat && c.toNat ≤ 0x200A) ||
    c.toNat = 0x2028 || c.toNat = 0x2029 || c.toNat = 0x202F ||
    c.toNat = 0x205F || c.toNat = 0x3000

/-- Strip `isPySpace` characters from both ends of a character list. -/
def stripChars (l : List Char) : List Char :=
  ((l.dropWhile isPySpace).reverse.dropWhile isPySpace).reverse

/-- Model of Python `str.strip()` (no arguments). -/
def pyStrip (s : String) : String := ⟨stripChars s.data⟩

/-- Model of Python `str.lower()` restricted to ASCII case mapping, which is
all the confirmation prompts ever need. -/
def pyLower (s : String) : String := ⟨s.data.map Char.toLower⟩

/-- Python truthiness of an optional string (`None` and `""` are falsy). -/
def pyTruthyOpt (o : Option String) : Bool :=
  match o with
  | none => false
  | some s => s != ""

/-! ## JSON values, modelling what `json.loads` produces -/

/-- JSON values as `json.loads` produces them.  An integer literal decodes
to `num`; a literal with a fraction or exponent part, and the non-standard
constants `NaN`, `Infinity` and `-Infinity` that `json.loads` accepts by
default, decode to a Python float, modelled as `fnum` carrying the exact
source lexeme (the program under verification never computes with the
float's value, only tests it for truthiness and for being a non-string). -/
inductive Json where
  | null
  | bool (b : Bool)
  | num (n : Int)
  | fnum (lit : String)
  | str (s : String)
  | arr (elems : List Json)
  | obj (members : List (String × Json))

/-- Discriminator for `null`, standing in for Python `x is None`. -/
def Json.isNull : Json → Bool
  | .null => true
  | _ => false

/-- Python `dict` lookup on the member list produced by decoding a JSON
object: with duplicate keys the later binding wins, as in `json.loads`. -/
def pyDictGet (kvs : List (String × Json)) (k : String) : Option Json :=
  match kvs with
  | [] => none
  | (k', v) :: rest =>
    match pyDictGet rest k with
    | some r => some r
    | none => if k' = k then some v else none

/-! ## A JSON text parser, modelling `json.loads`

The model accepts exactly the JSON documents `json.loads` accepts with its
default settings: strict-mode strings (`\u` escapes with adjacent surrogate
pairs combined), integers and floats per the scanner's number grammar, and
the non-standard constants `NaN`, `Infinity` and `-Infinity`.  Floats are
carried as their source lexeme rather than an IEEE value; lone surrogate
code units, which Lean's `Char` cannot hold, are stored as U+FFFD — neither
affects which documents are accepted. -/

/-- JSON structural whitespace. -/
def isJsonWs (c : Char) : Bool :=
  c = ' ' || c = '\t' || c = '\n' || c = '\r'

/-- Skip JSON structural whitespace. -/
def skipWs (l : List Char) : List Char := l.dropWhile isJsonWs

/-- Hex digit test. -/
def isHexDigitC (c : Char) : Bool :=
  (48 ≤ c.toNat && c.toNat ≤ 57) || (97 ≤ c.toNat && c.toNat ≤ 102) ||
    (65 ≤ c.toNat && c.toNat ≤ 70)

/-- Hex digit value. -/
def hexVal (c : Char) : Nat :=
  if 48 ≤ c.toNat && c.toNat ≤ 57 then c.toNat - 48
  else if 97 ≤ c.toNat && c.toNat ≤ 102 then c.toNat - 87
  else if 65 ≤ c.toNat && c.toNat ≤ 70 then c.toNat - 55
  else 0

theorem hexVal_lt (c : Char) : hexVal c < 16 := by
  unfold hexVal
  split_ifs with h1 h2 h3
  · simp only [Bool.and_eq_true, decide_eq_true_eq] at h1
    omega
  · simp only [Bool.and_eq_true, decide_eq_true_eq] at h2
    omega
  · simp only [Bool.and_eq_true, decide_eq_true_eq] at h3
    omega
  · omega

/-- Decode the character of a `\uXXXX` escape: a code outside the surrogate
range is the corresponding scalar.  Lean's `Char` cannot hold the lone
surrogate code units Python strings admit, so an unpaired surrogate is
mapped to U+FFFD; this changes no accept/reject outcome of the parser, only
the character stored for a string that is already not valid Unicode. -/
def uCharOf (n : Nat) : Char :=
  if 0xD800 ≤ n ∧ n ≤ 0xDFFF then '\uFFFD' else Char.ofNat n

/-- High half of a UTF-16 surrogate pair. -/
def isHighSurrogate (n : Nat) : Bool := 0xD800 ≤ n && n ≤ 0xDBFF

/-- Low half of a UTF-16 surrogate pair. -/
def isLowSurrogate (n : Nat) : Bool := 0xDC00 ≤ n && n ≤ 0xDFFF

/-- Decode a single-character JSON escape (the part after the backslash). -/
def escDecode (c : Char) : Option Char :=
  if c = '"' then some '"'
  else if c = '\\' then some '\\'
  else if c = '/' then some '/'
  else if c = 'b' then some '\x08'
  else if c = 'f' then some '\x0c'
  else if c = 'n' then some '\n'
  else if c = 'r' then some '\r'
  else if c = 't' then some '\t'
  else none

/-- One decoded element of a JSON string literal: a plain character, or the
code unit of a `\uXXXX` escape, kept numeric so that adjacent surrogate
escapes can be paired afterwards exactly as `json.loads` pairs them. -/
inductive SChar where
  | ch (c : Char)
  | u (code : Nat)

/-- Parse the body of a JSON string literal, after the opening quote; returns
the decoded elements together with the input following the closing quote.
Unescaped control characters are rejected, as in strict-mode `json.loads`. -/
def parseStringBody : List Char → Option (List SChar × List Char)
  | [] => none
  | c :: rest =>
    if c = '"' then some ([], rest)
    else if c = '\\' then
      match rest with
      | [] => none
      | e :: rest2 =>
        if e = 'u' then
          match rest2 with
          | h1 :: h2 :: h3 :: h4 :: rest3 =>
            if isHexDigitC h1 && isHexDigitC h2 && isHexDigitC h3 && isHexDigitC h4 then
              (parseStringBody rest3).map
                (fun p =>
                  (SChar.u (((hexVal h1 * 16 + hexVal h2) * 16 + hexVal h3) * 16 + hexVal h4)
                    :: p.1, p.2))
            else none
          | _ => none
        else
          match escDecode e with
          | some d => (parseStringBody rest2).map (fun p => (SChar.ch d :: p.1, p.2))
          | none => none
    else if c.toNat < 32 then none
    else (parseStringBody rest).map (fun p => (SChar.ch c :: p.1, p.2))

/-- Pair adjacent `\uXXXX` escapes as `json.loads` does: a high surrogate
immediately followed by a low surrogate yields the combined scalar; any
other `\u` code unit stands alone, via `uCharOf`. -/
def combineSurr : List SChar → List Char
  | [] => []
  | .ch c :: rest => c :: combineSurr rest
  | .u a :: .u b :: rest =>
    if isHighSurrogate a && isLowSurrogate b then
      Char.ofNat (0x10000 + (a - 0xD800) * 0x400 + (b - 0xDC00)) :: combineSurr rest
    else uCharOf a :: combineSurr (.u b :: rest)
  | .u a :: rest => uCharOf a :: combineSurr rest

/-- Decode a JSON string-literal body to its characters. -/
def decodeStringBody (l : List Char) : Option (List Char × List Char) :=
  (parseStringBody l).map (fun p => (combineSurr p.1, p.2))

/-- Digits to a natural number. -/
def digitsToNat (ds : List Char) : Nat :=
  ds.foldl (fun a c => a * 10 + (c.toNat - 48)) 0

/-- Build the decoded number from its parts, as `json.loads` does: no
fraction and no exponent give a Python int, anything else a Python float
(kept as its source lexeme). -/
def mkNum (neg : Bool) (ds : List Char) (frac : Option (List Char))
    (expPart : Option (List Char)) : Json :=
  match frac, expPart with
  | none, none => Json.num (if neg then -(digitsToNat ds : Int) else (digitsToNat ds : Int))
  | _, _ =>
    Json.fnum ⟨(if neg then ['-'] else []) ++ ds ++
      (match frac with | some f => '.' :: f | none => []) ++ expPart.getD []⟩

/-- Parse the optional exponent part of a number, the integer and fraction
parts already consumed. -/
def parseExpPart (neg : Bool) (ds : List Char) (frac : Option (List Char))
    (l : List Char) : Option (Json × List Char) :=
  match l with
  | c :: r2 =>
    if c = 'e' || c = 'E' then
      let (sgn, r3) :=
        match r2 with
        | '+' :: r => (['+'], r)
        | '-' :: r => (['-'], r)
        | r => (([] : List Char), r)
      let es := r3.takeWhile Char.isDigit
      if es = [] then none
      else some (mkNum neg ds frac (some (c :: (sgn ++ es))), r3.drop es.length)
    else some (mkNum neg ds frac none, c :: r2)
  | [] => some (mkNum neg ds frac none, [])

/-- Parse the digits of a JSON number after an optional minus sign:
`(0|[1-9][0-9]*)(\.[0-9]+)?([eE][-+]?[0-9]+)?`, the regular expression of
the `json` module's scanner. -/
def parseNumAfterSign (neg : Bool) (l : List Char) : Option (Json × List Char) :=
  let ds := l.takeWhile Char.isDigit
  let rest1 := l.drop ds.length
  if ds = [] then none
  else if ds.length > 1 && ds.head? = some '0' then none
  else
    match rest1 with
    | '.' :: r2 =>
      let fs := r2.takeWhile Char.isDigit
      if fs = [] then none
      else parseExpPart neg ds (some fs) (r2.drop fs.length)
    | _ => parseExpPart neg ds none rest1

/-- Parse a JSON number, possibly negative. -/
def parseNumber (l : List Char) : Option (Json × List Char) :=
  match l with
  | '-' :: rest => parseNumAfterSign true rest
  | _ => parseNumAfterSign false l

mutual

/-- Parse one JSON value, skipping leading whitespace.  `fuel` bounds the
recursion depth; `jsonParse` supplies more fuel than any input can consume. -/
def parseValue : Nat → List Char → Option (Json × List Char)
  | 0, _ => none
  | fuel + 1, cs =>
    match skipWs cs with
    | [] => none
    | c :: rest =>
      if c = '\x7b' then
        match skipWs rest with
        | '\x7d' :: r2 => some (.obj [], r2)
        | r2 => (parseMembers fuel r2).map (fun p => (Json.obj p.1, p.2))
      else if c = '[' then
        match skipWs rest with
        | ']' :: r2 => some (.arr [], r2)
        | r2 => (parseElems fuel r2).map (fun p => (Json.arr p.1, p.2))
      else if c = '"' then
        (decodeStringBody rest).map (fun p => (Json.str ⟨p.1⟩, p.2))
      else if c = 't' then
        if ("rue".data).isPrefixOf rest then some (.bool true, rest.drop 3) else none
      else if c = 'f' then
        if ("alse".data).isPrefixOf rest then some (.bool false, rest.drop 4) else none
      else if c = 'n' then
        if ("ull".data).isPrefixOf rest then some (.null, rest.drop 3) else none
      else if c = 'N' then
        if ("aN".data).isPrefixOf rest then some (.fnum "NaN", rest.drop 2) else none
      else if c = 'I' then
        if ("nfinity".data).isPrefixOf rest then some (.fnum "Infinity", rest.drop 7) else none
      else if c = '-' then
        match rest with
        | 'I' :: r2 =>
          if ("nfinity".data).isPrefixOf r2 then some (.fnum "-Infinity", r2.drop 7) else none
        | _ => parseNumber ('-' :: rest)
      else if c.isDigit then parseNumber (c :: rest)
      else none

/-- Parse the members of a JSON object after its opening brace (non-empty
case), ending at the closing brace. -/
def parseMembers : Nat → List Char → Option (List (String × Json) × List Char)
  | 0, _ => none
  | fuel + 1, cs =>
    match cs with
    | '"' :: rest =>
      match decodeStringBody rest with
      | some (k, r1) =>
        match skipWs r1 with
        | ':' :: r2 =>
          match parseValue fuel r2 with
          | some (v, r3) =>
            match skipWs r3 with
            | ',' :: r4 =>
              (parseMembers fuel (skipWs r4)).map (fun p => ((⟨k⟩, v) :: p.1, p.2))
            | '\x7d' :: r4 => some ([(⟨k⟩, v)], r4)
            | _ => none
          | none => none
        | _ => none
      | none => none
    | _ => none

/-- Parse the elements of a JSON array after its opening bracket (non-empty
case), ending at the closing bracket. -/
def parseElems : Nat → List Char → Option (List Json × List Char)
  | 0, _ => none
  | fuel + 1, cs =>
    match parseValue fuel cs with
    | some (v, r1) =>
      match skipWs r1 with
      | ',' :: r2 => (parseElems fuel r2).map (fun p => (v :: p.1, p.2))
      | ']' :: r2 => some ([v], r2)
      | _ => none
    | none => none

end

/-- Model of `json.loads`: parse a complete JSON document, requiring that
nothing but whitespace follows it. -/
def jsonParse (s : String) : Option Json :=
  match parseValue (s.length + 1) s.data with
  | some (j, rest) => if skipWs rest = [] then some j else none
  | none => none

/-! ## The response parser (src/main.py, `parse_response`, lines 153-170) -/

/-- Fence stripping of `parse_response`: after an initial `strip()`, drop a
leading "```json" marker (7 characters) if present, then drop a trailing
"```" marker (3 characters) if present.  The two checks are made
independently, exactly as in the source. -/
def stripFences (l : List Char) : List Char :=
  let l1 := if ("```json".data).isPrefixOf l then l.drop 7 else l
  if ("```".data).isSuffixOf l1 then l1.take (l1.length - 3) else l1

/-- Lines 155-160 of src/main.py: `strip`, fence removal, `strip` again. -/
def normalizeResponse (s : String) : String :=
  ⟨stripChars (stripFences (stripChars s.data))⟩

/-- Exceptions that can escape `parse_response` uncaught: `KeyError` from
`data["commit_message"]` on an object without that key, and `TypeError` from
indexing a decoded non-object with a string. -/
inductive PyError where
  | keyError
  | typeError
deriving DecidableEq

/-- Outcome of `parse_response`: the returned pair `(commit_msg, branch_name)`
on success, the `(None, None)` rejection result for a JSON decode error, or
an uncaught exception.  The commit message is kept as a raw `Json` value
because the source performs no type validation on it. -/
inductive ParseResult where
  | ok (commitMsg : Json) (branchName : Option Json)
  | malformed
  | exn (e : PyError)

/-- Python `data.get(k)` as used for `branch_name`: a JSON `null` value is
indistinguishable from an absent key, both give Python `None`. -/
def jsonGetOrNone (kvs : List (String × Json)) (k : String) : Option Json :=
  match pyDictGet kvs k with
  | some Json.null => none
  | r => r

/-- Model of `parse_response(result, args)` from src/main.py.  Only
`json.JSONDecodeError` is caught; a missing `"commit_message"` key raises
`KeyError` and a non-object document raises `TypeError`, both uncaught. -/
def parse_response (result : String) (wantsBranch : Bool) : ParseResult :=
  match jsonParse (normalizeResponse result) with
  | none => .malformed
  | some (Json.obj kvs) =>
    match pyDictGet kvs "commit_message" with
    | none => .exn .keyError
    | some v => .ok v (if wantsBranch then jsonGetOrNone kvs "branch_name" else none)
  | some _ => .exn .typeError

/-! ## CLI arguments and configuration (src/main.py, `main` lines 205-216,
`load_config`) -/

/-- The argparse result: the flags of a single run. -/
structure Args where
  init : Bool
  push : Bool
  yes : Bool
  branch : Bool
  extra_info : Option String
  output : Option String

/-- The configuration dictionary loaded from `~/.cmmt.yml`; `none` models an
absent key (Python `dict.get` returning `None`). -/
structure Config where
  openai_api_key : Option String
  model : Option String
  base_url : Option String
  max_tokens : Option Int
  ignore_files : List String
  extra_info : Option String

/-! ## Repository inspector (src/main.py lines 44-67) -/

/-- The external world: `run` gives each `subprocess.run(..., check=True)`
invocation's outcome (`some stdout` on exit 0, `none` for
`CalledProcessError`), `backend` the OpenAI reply (`none` when the client
raises), `confirm1`/`confirm2` the interactive answers, and `encodingKnown`
whether `tiktoken` recognises the configured model. -/
structure World where
  run : List String → Option String
  backend : Option String
  confirm1 : String
  confirm2 : String
  encodingKnown : Bool

/-- The fixed status query argv. -/
def gitStatusCommand : List String :=
  ["git", "status", "--porcelain", "--untracked-files=all"]

/-- The staged-diff argv including the `:(exclude)` pathspecs appended, two
arguments per ignore entry, in configuration order (lines 60-63). -/
def gitDiffCommand (config : Config) : List String :=
  ["git", "diff", "--staged"] ++
    (if config.ignore_files ≠ [] then
      config.ignore_files.flatMap (fun file => ["--", ":(exclude)" ++ file])
    else [])

/-- Model of `get_git_status`: `none` is the `CalledProcessError` path that
the caller treats as "not a repository". -/
def get_git_status (w : World) : Option String :=
  w.run gitStatusCommand

/-- Model of `get_git_diff`: a `CalledProcessError` from the diff command is
swallowed and degrades to the empty string. -/
def get_git_diff (config : Config) (w : World) : String :=
  match w.run (gitDiffCommand config) with
  | some out => out
  | none => ""

/-! ## Prompt builder (src/main.py, `build_prompt`, lines 70-131) -/

/-- The `format_str` JSON skeleton (lines 71-74). -/
def format_str (branch : Bool) : String :=
  "\x7b\"commit_message\": \"...\"" ++
    (if branch then ", \"branch_name\": \"...\"" else "") ++ "\x7d"

/-- Task preamble (lines 76-79). -/
def promptTask : String :=
  "# Task\nI will provide you with the output of `git status` and `git diff`. Based on this, generate:\n- A **Commit Message** that follows the **Conventional Commits** specification.\n"

/-- The extra line added when a branch name is requested (line 81). -/
def promptBranchLine : String :=
  "- A **Branch Name** that follows the specification.\n"

/-- Commit-message specification block (lines 83-101). -/
def promptRequirements : String :=
  "# Requirements\n## Commit Message Specification\n- **Header**: `<type>(<scope>): <short summary>` (no more than 50 characters)\n  - Type: feat, fix, docs, style, refactor, perf, test, build, ci, chore, revert.\n  - Scope: Optional, indicates the module (e.g., auth, ui, parser, gradle).\n  - Summary: Starts with a verb in present tense, lowercase first letter, no period at the end, describes the changes in detail.\n- **Body**: (if necessary) Detailed explanation of the reason and logic for the changes.\n- **Footer**: (if necessary) List Breaking Changes or related Issue IDs.\nExample:\n```\nfeat(auth): add login with OAuth 2.0\n\n- Implement OAuth 2.0 login flow using Google and Facebook.\n- Update user model to store OAuth tokens.\n\nBREAKING CHANGE: user passwords are no longer stored in the database.\nCloses #123\n```\n"

/-- Branch-name specification block (lines 102-107). -/
def promptBranchSpec : String :=
  "## Branch Name Specification\n- Format: `type/short-description` (e.g., feat/login-api, fix/overflow-issue)\n- Use lowercase letters, separate words with hyphens `-`.\n- Types: feat, fix, docs, style, refactor, perf, test, chore.\n"

/-- Output-format instruction up to where `format_str` is spliced in
(lines 109-116). -/
def promptOutputHead : String :=
  "# Important\nYou must strictly follow the specifications without any deviations.\n# Output Format\nYou can only output content similar to the following: "

/-- Extra-information section (lines 118-123): header plus configuration's
text then the run's text, each only if truthy, nothing when both are falsy. -/
def extraSection (args : Args) (config : Config) : String :=
  if pyTruthyOpt args.extra_info || pyTruthyOpt config.extra_info then
    "# Extra Information\n" ++
      (if pyTruthyOpt config.extra_info then config.extra_info.getD "" ++ "\n" else "") ++
      (if pyTruthyOpt args.extra_info then args.extra_info.getD "" ++ "\n" else "")
  else ""

/-- Model of `build_prompt(status, diff, args, config)`: the exact
concatenation performed by the `+=` sequence of lines 76-131. -/
def build_prompt (status diff : String) (args : Args) (config : Config) : String :=
  promptTask ++
    (if args.branch then promptBranchLine else "") ++
    promptRequirements ++
    (if args.branch then promptBranchSpec else "") ++
    promptOutputHead ++ format_str args.branch ++ "\n" ++
    extraSection args config ++
    "# Context\n## Git status:\n" ++ status ++ "\n## Git diff:\n" ++ diff ++ "\n"

/-! ## Command executor (src/main.py, `execute_git_commands`, lines 173-202) -/

/-- Whether a float literal denotes `0.0` (the falsy float): every digit of
its mantissa is zero.  `NaN` and the infinities are truthy.  IEEE underflow
of a tiny non-zero literal to `0.0` is not modelled; no value this program
inspects is affected. -/
def jsonFloatIsZero (lit : String) : Bool :=
  if lit = "NaN" || lit = "Infinity" || lit = "-Infinity" then false
  else
    ((lit.data.takeWhile (fun c => !(c = 'e' || c = 'E'))).filter Char.isDigit).all
      (fun c => c = '0')

/-- Python truthiness of the `branch_name` value handed to the executor
(`None`, and falsy JSON-derived values such as `""` or `0.0`, fail an
`if`). -/
def pyTruthyJson : Option Json → Bool
  | none => false
  | some j =>
    match j with
    | .null => false
    | .bool b => b
    | .num n => n != 0
    | .fnum lit => !jsonFloatIsZero lit
    | .str s => s != ""
    | .arr l => !l.isEmpty
    | .obj l => !l.isEmpty

/-- Executor outcome: `ret ok trace` when the function returns `ok` after
attempting the argv lists in `trace` (in order), `exn trace` when
`subprocess.run` raises `TypeError` because a non-string reached an argv
slot. -/
inductive ExecOut where
  | ret (ok : Bool) (trace : List (List String))
  | exn (trace : List (List String))

/-- Push step (lines 192-200): target is `branch_name or "main"`. -/
def executePushStep (branch_name : Option Json) (args : Args)
    (run : List String → Option String) (t : List (List String)) : ExecOut :=
  if args.push then
    match (if pyTruthyJson branch_name then branch_name else some (Json.str "main")) with
    | some (Json.str b) =>
      let c := ["git", "push", "-u", "origin", b]
      if (run c).isSome then .ret true (t ++ [c]) else .ret false (t ++ [c])
    | _ => .exn t
  else .ret true t

/-- Branch step (lines 183-189): only when `branch_name` is truthy. -/
def executeBranchStep (branch_name : Option Json) (args : Args)
    (run : List String → Option String) (t : List (List String)) : ExecOut :=
  if pyTruthyJson branch_name then
    match branch_name with
    | some (Json.str b) =>
      let c := ["git", "checkout", "-b", b]
      if (run c).isSome then executePushStep (some (Json.str b)) args run (t ++ [c])
      else .ret false (t ++ [c])
    | _ => .exn t
  else executePushStep branch_name args run t

/-- Model of `execute_git_commands(commit_msg, branch_name, args)`: commit,
then optional branch creation, then optional push, returning `False` at the
first failing step and attempting nothing after it. -/
def execute_git_commands (commit_msg : Json) (branch_name : Option Json)
    (args : Args) (run : List String → Option String) : ExecOut :=
  match commit_msg with
  | .str m =>
    let c := ["git", "commit", "-m", m]
    if (run c).isSome then executeBranchStep branch_name args run [c]
    else .ret false [c]
  | _ => .exn []

/-! ## Run orchestrator (src/main.py, `main`, lines 205-301) -/

/-- Observable effects of a run, in order of occurrence. -/
inductive Event where
  | runCmd (argv : List String)
  | promptBuilt
  | wroteFile (path : String)
  | backendCalled
deriving DecidableEq

/-- Model of `call_openai`: the raw reply stripped, or `None` when the client
raised (every exception is caught and swallowed into `None`). -/
def call_openai (w : World) : Option String :=
  w.backend.map pyStrip

/-- Model of `main()` (lines 205-301), minus the `--init` interactive branch
which performs no repository or backend work.  Returns the process exit code
(`0` when `main` returns, `1` when an uncaught exception escapes it) together
with the ordered trace of observable effects.  (Named `mainRun` because Lean
reserves `main` for an IO entry point.) -/
def mainRun (args : Args) (config : Config) (w : World) : Nat × List Event :=
  if args.init then (0, [])
  else if ¬pyTruthyOpt config.openai_api_key then (0, [])
  else
    let ev0 := [Event.runCmd gitStatusCommand]
    match get_git_status w with
    | none => (0, ev0)
    | some status =>
      let diff := get_git_diff config w
      let ev1 := ev0 ++ [Event.runCmd (gitDiffCommand config)]
      let _prompt := build_prompt status diff args config
      let ev2 := ev1 ++ [Event.promptBuilt]
      let ev3 := ev2 ++ (match args.output with
        | some p => [Event.wroteFile p]
        | none => [])
      if args.yes = false ∧ pyLower w.confirm1 ≠ "y" then (0, ev3)
      else
        let ev4 := ev3 ++ [Event.backendCalled]
        match call_openai w with
        | none => (0, ev4)
        | some result =>
          match parse_response result args.branch with
          | .malformed => (0, ev4)
          | .exn _ => (1, ev4)
          | .ok msg branch =>
            match msg with
            | .null => (0, ev4)
            | _ =>
              if args.yes = false ∧ pyLower w.confirm2 ≠ "y" then (0, ev4)
              else
                match execute_git_commands msg branch args w.run with
                | .ret _ t => (0, ev4 ++ t.map Event.runCmd)
                | .exn t => (1, ev4 ++ t.map Event.runCmd)

/-! ## Substring machinery

Occurrence of a block in a produced string is formalised as `List.IsInfix`
on the character lists; `containsSub` is its executable counterpart, and
`noNlChain` rules out occurrences of a newline-free needle crossing a
newline boundary. -/

/-- Executable substring test: does `n` occur as a contiguous infix of `h`? -/
def containsSub (n : List Char) : List Char → Bool
  | [] => n.isEmpty
  | c :: t => n.isPrefixOf (c :: t) || containsSub n t

theorem containsSub_iff (n h : List Char) : containsSub n h = true ↔ n <:+: h := by
  induction h with
  | nil =>
    simp [containsSub, List.isEmpty_iff]
  | cons c t ih =>
    simp [containsSub, List.infix_cons_iff, List.isPrefixOf_iff_prefix, ih, or_comm]

/-- An infix of `a ++ b` lies in `a`, lies in `b`, or straddles the seam. -/
theorem infixSplit {m a b : List Char} (h : m <:+: a ++ b) :
    m <:+: a ∨ m <:+: b ∨
      ∃ a₂ b₁, a₂ ≠ [] ∧ b₁ ≠ [] ∧ a₂ <:+ a ∧ b₁ <+: b ∧ m = a₂ ++ b₁ := by
  obtain ⟨s, t, hst⟩ := h
  have hm : m = ((a ++ b).drop s.length).take m.length := by
    rw [← hst]
    rw [show s ++ m ++ t = s ++ (m ++ t) by simp [List.append_assoc]]
    rw [List.drop_left, List.take_left]
  have hlen : s.length + (m.length + t.length) = a.length + b.length := by
    simpa using congrArg List.length hst
  by_cases h1 : s.length + m.length ≤ a.length
  · left
    have hdrop : (a ++ b).drop s.length = a.drop s.length ++ b := by
      rw [List.drop_append_eq_append_drop]
      have hz : s.length - a.length = 0 := by omega
      rw [hz, List.drop_zero]
    rw [hdrop] at hm
    have htake : (a.drop s.length ++ b).take m.length =
        (a.drop s.length).take m.length := by
      rw [List.take_append_eq_append_take]
      have hz : m.length - (a.drop s.length).length = 0 := by
        simp only [List.length_drop]; omega
      rw [hz, List.take_zero, List.append_nil]
    rw [htake] at hm
    exact List.IsInfix.trans (hm ▸ ( List.take_prefix _ _).isInfix)
      (List.drop_suffix _ _).isInfix
  · by_cases h2 : a.length ≤ s.length
    · right; left
      have hdrop : (a ++ b).drop s.length = b.drop (s.length - a.length) := by
        rw [List.drop_append_eq_append_drop]
        have hz : a.drop s.length = [] := by
          rw [List.drop_eq_nil_iff]; omega
        rw [hz, List.nil_append]
      rw [hdrop] at hm
      exact List.IsInfix.trans (hm ▸ ( List.take_prefix _ _).isInfix)
        (List.drop_suffix _ _).isInfix
    · right; right
      have hbpos : 0 < b.length := by omega
      refine ⟨a.drop s.length, b.take (m.length - (a.length - s.length)), ?_, ?_,
        List.drop_suffix _ _, List.take_prefix _ _, ?_⟩
      · rw [Ne, List.drop_eq_nil_iff]; omega
      · rw [Ne, List.take_eq_nil_iff]
        push_neg
        refine ⟨by omega, ?_⟩
        intro hb
        rw [hb] at hbpos
        simp at hbpos
      · nth_rewrite 1 [hm]
        rw [List.drop_append_eq_append_drop]
        have hz : s.length - a.length = 0 := by omega
        rw [hz, List.drop_zero, List.take_append_eq_append_take]
        congr 1
        · apply List.take_of_length_le
          simp only [List.length_drop]; omega
        · congr 1
          simp only [List.length_drop]

/-- A newline-free, non-empty needle absent from `a` and from `b` cannot
occur in `a ++ '\n' :: b`. -/
theorem noNlChain {m a b : List Char} (hm : m ≠ []) (hnl : '\n' ∉ m)
    (ha : ¬ m <:+: a) (hb : ¬ m <:+: b) : ¬ m <:+: a ++ '\n' :: b := by
  intro h
  rcases infixSplit h with h1 | h2 | ⟨a₂, b₁, ha₂, hb₁, _, hpre, heq⟩
  · exact ha h1
  · rcases List.infix_cons_iff.mp h2 with hp | hi
    · cases m with
      | nil => exact hm rfl
      | cons c ms =>
        rw [List.cons_prefix_cons] at hp
        exact hnl (hp.1 ▸ List.mem_cons_self _ _)
    · exact hb hi
  · cases b₁ with
    | nil => exact hb₁ rfl
    | cons c bs =>
      rw [List.cons_prefix_cons] at hpre
      apply hnl
      rw [heq, hpre.1]
      exact List.mem_append_right _ (List.mem_cons_self _ _)

/-- A non-empty needle does not occur in the empty string. -/
theorem notInfixNil {m : List Char} (hm : m ≠ []) : ¬ m <:+: [] := by
  intro h
  exact hm (List.eq_nil_of_infix_nil h)

/-! ## Lemmas about `str.strip` and fence removal -/

theorem string_data_append (a b : String) : (a ++ b).data = a.data ++ b.data := rfl

theorem dropWhile_eq_self_of_head {p : Char → Bool} {l : List Char}
    (h : ∀ c, l.head? = some c → p c = false) : l.dropWhile p = l := by
  cases l with
  | nil => rfl
  | cons c t =>
    rw [List.dropWhile_cons, h c rfl]
    simp

theorem stripChars_eq_self {l : List Char}
    (h1 : ∀ c, l.head? = some c → isPySpace c = false)
    (h2 : ∀ c, l.getLast? = some c → isPySpace c = false) : stripChars l = l := by
  unfold stripChars
  rw [dropWhile_eq_self_of_head h1]
  rw [dropWhile_eq_self_of_head (fun c hc => h2 c (by rwa [List.head?_reverse] at hc))]
  exact List.reverse_reverse l

theorem stripChars_cons_space {c : Char} {l : List Char} (h : isPySpace c = true) :
    stripChars (c :: l) = stripChars l := by
  unfold stripChars
  rw [List.dropWhile_cons, h]
  simp

theorem stripChars_concat_space {l : List Char} {d : Char} (h : isPySpace d = true) :
    stripChars (l ++ [d]) = stripChars l := by
  unfold stripChars
  rw [List.dropWhile_append]
  by_cases he : (l.dropWhile isPySpace).isEmpty
  · rw [if_pos he]
    have h0 : l.dropWhile isPySpace = [] := by
      rwa [List.isEmpty_iff] at he
    rw [h0]
    simp [List.dropWhile_cons, h]
  · rw [if_neg he]
    rw [List.reverse_append]
    simp only [List.reverse_cons, List.reverse_nil, List.nil_append, List.singleton_append]
    rw [List.dropWhile_cons, h]
    simp

theorem stripChars_pad {x : List Char}
    (h1 : ∀ c, x.head? = some c → isPySpace c = false)
    (h2 : ∀ c, x.getLast? = some c → isPySpace c = false) :
    stripChars ('\n' :: (x ++ ['\n'])) = x := by
  rw [stripChars_cons_space (by decide), stripChars_concat_space (by decide)]
  exact stripChars_eq_self h1 h2

theorem stripFences_id {l : List Char}
    (hpre : ("```json".data).isPrefixOf l = false)
    (hsuf : ("```".data).isSuffixOf l = false) : stripFences l = l := by
  unfold stripFences
  rw [hpre]
  simp only [Bool.false_eq_true, if_false]
  rw [hsuf]
  simp

theorem stripFences_fenced (x : List Char) :
    stripFences ("```json".data ++ (x ++ "```".data)) = x := by
  unfold stripFences
  have hpre : ("```json".data).isPrefixOf ("```json".data ++ (x ++ "```".data)) = true := by
    rw [ List.isPrefixOf_iff_prefix]
    exact List.prefix_append _ _
  rw [hpre]
  simp only [if_true]
  have hdrop : ("```json".data ++ (x ++ "```".data)).drop 7 = x ++ "```".data := by
    have h7 : ("```json".data).length = 7 := rfl
    rw [show (7 : Nat) = ("```json".data).length from rfl, List.drop_left]
  rw [hdrop]
  have hsuf : ("```".data).isSuffixOf (x ++ "```".data) = true := by
    rw [List.isSuffixOf_iff_suffix]
    exact List.suffix_append _ _
  rw [hsuf]
  simp only [if_true]
  have hlen : (x ++ "```".data).length - 3 = x.length := by
    simp [List.length_append]
  rw [hlen, List.take_left]

theorem stripFences_trailing {l : List Char}
    (hpre : ("```json".data).isPrefixOf l = false)
    (hsuf : ("```".data).isSuffixOf l = true) :
    stripFences l = l.take (l.length - 3) := by
  unfold stripFences
  rw [hpre]
  simp only [Bool.false_eq_true, if_false]
  rw [hsuf]
  simp

theorem isPrefixOf_false_of_head {n l : List Char} {c c' : Char}
    (hn : n.head? = some c) (hl : l.head? = some c') (hne : c ≠ c') :
    n.isPrefixOf l = false := by
  rw [Bool.eq_false_iff]
  intro h
  rw [ List.isPrefixOf_iff_prefix] at h
  cases n with
  | nil => simp at hn
  | cons a t =>
    cases l with
    | nil => simp at hl
    | cons b u =>
      rw [List.cons_prefix_cons] at h
      simp only [List.head?_cons, Option.some.injEq] at hn hl
      exact hne (hn ▸ hl ▸ h.1)

theorem isSuffixOf_false_of_getLast {n l : List Char} {c c' : Char}
    (hn : n.getLast? = some c) (hl : l.getLast? = some c') (hne : c ≠ c') :
    n.isSuffixOf l = false := by
  rw [Bool.eq_false_iff]
  intro h
  rw [List.isSuffixOf_iff_suffix] at h
  obtain ⟨t, ht⟩ := h
  have hnn : n ≠ [] := by
    intro h0
    rw [h0] at hn
    simp at hn
  rw [← ht, List.getLast?_append_of_ne_nil t hnn, hn] at hl
  exact hne (Option.some.injEq _ _ ▸ hl)

/-! ## A JSON serializer for the round-trip law

`escChar`/`jsonQuote` mirror the escaping `json.dumps` applies to the
strings of a commit plan, and `serializePlan` produces the canonical
serialization of a CommitPlan-shaped object (`json.dumps` default
separators).  `fenceWrap` wraps a payload in the markdown code fence the
parser is designed to remove. -/

/-- Lower-case hex digit, as emitted by `json.dumps`. -/
def hexDigitChar (n : Nat) : Char :=
  if n < 10 then Char.ofNat (48 + n) else Char.ofNat (87 + n)

/-- Escape one character of a JSON string literal. -/
def escChar (c : Char) : List Char :=
  if c = '"' then ['\\', '"']
  else if c = '\\' then ['\\', '\\']
  else if c = '\n' then ['\\', 'n']
  else if c = '\t' then ['\\', 't']
  else if c = '\r' then ['\\', 'r']
  else if c = '\x08' then ['\\', 'b']
  else if c = '\x0c' then ['\\', 'f']
  else if c.toNat < 32 then
    ['\\', 'u', '0', '0', hexDigitChar (c.toNat / 16), hexDigitChar (c.toNat % 16)]
  else [c]

/-- Serialize a string as a JSON string literal. -/
def jsonQuote (s : String) : String := ⟨'"' :: (s.data.flatMap escChar ++ ['"'])⟩

/-- Serialize a CommitPlan-shaped object with a `commit_message` string and
an optional `branch_name` string. -/
def serializePlan (msg : String) (branch : Option String) : String :=
  "\x7b\"commit_message\": " ++ jsonQuote msg ++
    (match branch with
     | some b => ", \"branch_name\": " ++ jsonQuote b
     | none => "") ++ "\x7d"

/-- The object `parse_response` should recover from `serializePlan`. -/
def planKvs (msg : String) (branch : Option String) : List (String × Json) :=
  ("commit_message", Json.str msg) ::
    (match branch with
     | some b => [("branch_name", Json.str b)]
     | none => [])

/-- Wrap a payload in a markdown code fence, as backends commonly do. -/
def fenceWrap (s : String) : String := "```json\n" ++ s ++ "\n```"

theorem hexDigitChar_isHex : ∀ k < 16, isHexDigitC (hexDigitChar k) = true := by decide

theorem hexVal_hexDigitChar : ∀ k < 16, hexVal (hexDigitChar k) = k := by decide

theorem parseStringBody_quote (r : List Char) :
    parseStringBody ('"' :: r) = some ([], r) := by
  rw [parseStringBody.eq_def]
  simp

theorem parseStringBody_esc (e d : Char) (r : List Char)
    (hne : e ≠ 'u') (hd : escDecode e = some d) :
    parseStringBody ('\\' :: e :: r) =
      (parseStringBody r).map (fun p => (SChar.ch d :: p.1, p.2)) := by
  rw [parseStringBody.eq_def]
  simp [hne, hd]

theorem parseStringBody_u {h1 h2 h3 h4 : Char} (r : List Char)
    (hh1 : isHexDigitC h1 = true) (hh2 : isHexDigitC h2 = true)
    (hh3 : isHexDigitC h3 = true) (hh4 : isHexDigitC h4 = true) :
    parseStringBody ('\\' :: 'u' :: h1 :: h2 :: h3 :: h4 :: r) =
      (parseStringBody r).map
        (fun p =>
          (SChar.u (((hexVal h1 * 16 + hexVal h2) * 16 + hexVal h3) * 16 + hexVal h4)
            :: p.1, p.2)) := by
  rw [parseStringBody.eq_def]
  simp [hh1, hh2, hh3, hh4]

theorem parseStringBody_raw {c : Char} (r : List Char)
    (hq : c ≠ '"') (hb : c ≠ '\\') (hc : ¬ c.toNat < 32) :
    parseStringBody (c :: r) = (parseStringBody r).map (fun p => (SChar.ch c :: p.1, p.2)) := by
  rw [parseStringBody.eq_def]
  simp [hq, hb, hc]

/-- The decoded element `escChar c` stands for: the character itself, except
the control characters escaped as `\u00XX`, which come back as their code
unit. -/
def escTokenOf (c : Char) : SChar :=
  if c = '"' then SChar.ch c
  else if c = '\\' then SChar.ch c
  else if c = '\n' then SChar.ch c
  else if c = '\t' then SChar.ch c
  else if c = '\r' then SChar.ch c
  else if c = '\x08' then SChar.ch c
  else if c = '\x0c' then SChar.ch c
  else if c.toNat < 32 then SChar.u c.toNat
  else SChar.ch c

theorem escTokenOf_spec (c : Char) :
    escTokenOf c = SChar.ch c ∨ (escTokenOf c = SChar.u c.toNat ∧ c.toNat < 32) := by
  unfold escTokenOf
  split_ifs with h1 h2 h3 h4 h5 h6 h7 h8
  · exact Or.inl rfl
  · exact Or.inl rfl
  · exact Or.inl rfl
  · exact Or.inl rfl
  · exact Or.inl rfl
  · exact Or.inl rfl
  · exact Or.inl rfl
  · exact Or.inr ⟨rfl, h8⟩
  · exact Or.inl rfl

theorem combineSurr_u_notHigh {a : Nat} (ts : List SChar) (h : isHighSurrogate a = false) :
    combineSurr (SChar.u a :: ts) = uCharOf a :: combineSurr ts := by
  cases ts with
  | nil => rfl
  | cons t ts2 =>
    cases t with
    | ch c => rfl
    | u b =>
      rw [combineSurr.eq_def]
      simp [h]

theorem combineSurr_map_escTokenOf (l : List Char) :
    combineSurr (l.map escTokenOf) = l := by
  induction l with
  | nil => rfl
  | cons c t ih =>
    rw [List.map_cons]
    rcases escTokenOf_spec c with h | ⟨h, hlt⟩
    · rw [h]
      rw [show combineSurr (SChar.ch c :: t.map escTokenOf) =
        c :: combineSurr (t.map escTokenOf) from rfl, ih]
    · rw [h]
      rw [combineSurr_u_notHigh _ (by simp [isHighSurrogate]; omega)]
      rw [ih]
      have hu : uCharOf c.toNat = c := by
        unfold uCharOf
        rw [if_neg (by omega)]
        exact Char.ofNat_toNat c
      rw [hu]

theorem parseStringBody_escape (l rest : List Char) :
    parseStringBody (l.flatMap escChar ++ '"' :: rest) = some (l.map escTokenOf, rest) := by
  induction l with
  | nil =>
    simpa using parseStringBody_quote rest
  | cons c t ih =>
    rw [List.flatMap_cons, List.append_assoc, List.map_cons]
    by_cases h1 : c = '"'
    · subst h1
      rw [show escChar '"' = ['\\', '"'] from rfl]
      simp only [List.cons_append, List.nil_append]
      rw [parseStringBody_esc '"' '"' _ (by decide) rfl, ih]
      rfl
    · by_cases h2 : c = '\\'
      · subst h2
        rw [show escChar '\\' = ['\\', '\\'] from rfl]
        simp only [List.cons_append, List.nil_append]
        rw [parseStringBody_esc '\\' '\\' _ (by decide) rfl, ih]
        rfl
      · by_cases h3 : c = '\n'
        · subst h3
          rw [show escChar '\n' = ['\\', 'n'] from rfl]
          simp only [List.cons_append, List.nil_append]
          rw [parseStringBody_esc 'n' '\n' _ (by decide) rfl, ih]
          rfl
        · by_cases h4 : c = '\t'
          · subst h4
            rw [show escChar '\t' = ['\\', 't'] from rfl]
            simp only [List.cons_append, List.nil_append]
            rw [parseStringBody_esc 't' '\t' _ (by decide) rfl, ih]
            rfl
          · by_cases h5 : c = '\r'
            · subst h5
              rw [show escChar '\r' = ['\\', 'r'] from rfl]
              simp only [List.cons_append, List.nil_append]
              rw [parseStringBody_esc 'r' '\r' _ (by decide) rfl, ih]
              rfl
            · by_cases h6 : c = '\x08'
              · subst h6
                rw [show escChar '\x08' = ['\\', 'b'] from rfl]
                simp only [List.cons_append, List.nil_append]
                rw [parseStringBody_esc 'b' '\x08' _ (by decide) rfl, ih]
                rfl
              · by_cases h7 : c = '\x0c'
                · subst h7
                  rw [show escChar '\x0c' = ['\\', 'f'] from rfl]
                  simp only [List.cons_append, List.nil_append]
                  rw [parseStringBody_esc 'f' '\x0c' _ (by decide) rfl, ih]
                  rfl
                · by_cases h8 : c.toNat < 32
                  · have hhi : c.toNat / 16 < 16 := by omega
                    have hlo : c.toNat % 16 < 16 := by omega
                    have hesc : escChar c = ['\\', 'u', '0', '0',
                        hexDigitChar (c.toNat / 16), hexDigitChar (c.toNat % 16)] := by
                      unfold escChar
                      rw [if_neg h1, if_neg h2, if_neg h3, if_neg h4, if_neg h5,
                        if_neg h6, if_neg h7, if_pos h8]
                    rw [hesc]
                    simp only [List.cons_append, List.nil_append]
                    rw [parseStringBody_u _ (by decide) (by decide)
                      (hexDigitChar_isHex _ hhi) (hexDigitChar_isHex _ hlo), ih]
                    have harith : ((hexVal '0' * 16 + hexVal '0') * 16 +
                        hexVal (hexDigitChar (c.toNat / 16))) * 16 +
                        hexVal (hexDigitChar (c.toNat % 16)) = c.toNat := by
                      rw [hexVal_hexDigitChar _ hhi, hexVal_hexDigitChar _ hlo]
                      rw [show hexVal '0' = 0 from rfl]
                      omega
                    have htok : escTokenOf c = SChar.u c.toNat := by
                      unfold escTokenOf
                      rw [if_neg h1, if_neg h2, if_neg h3, if_neg h4, if_neg h5,
                        if_neg h6, if_neg h7, if_pos h8]
                    simp [harith, htok]
                  · have hesc : escChar c = [c] := by
                      unfold escChar
                      rw [if_neg h1, if_neg h2, if_neg h3, if_neg h4, if_neg h5,
                        if_neg h6, if_neg h7, if_neg h8]
                    have htok : escTokenOf c = SChar.ch c := by
                      unfold escTokenOf
                      rw [if_neg h1, if_neg h2, if_neg h3, if_neg h4, if_neg h5,
                        if_neg h6, if_neg h7, if_neg h8]
                    rw [hesc]
                    simp only [List.singleton_append]
                    rw [parseStringBody_raw _ h1 h2 h8, ih, htok]
                    rfl

theorem decodeStringBody_escape (l rest : List Char) :
    decodeStringBody (l.flatMap escChar ++ '"' :: rest) = some (l, rest) := by
  unfold decodeStringBody
  rw [parseStringBody_escape]
  simp [combineSurr_map_escTokenOf]

theorem skipWs_not {c : Char} (x : List Char) (h : isJsonWs c = false) :
    skipWs (c :: x) = c :: x := by
  simp [skipWs, List.dropWhile_cons, h]

theorem skipWs_space (x : List Char) : skipWs (' ' :: x) = skipWs x := by
  simp [skipWs, List.dropWhile_cons, isJsonWs]

theorem parseValue_quote (f : Nat) (x : List Char) :
    parseValue (f + 1) ('"' :: x) =
      (decodeStringBody x).map (fun p => (Json.str ⟨p.1⟩, p.2)) := by
  rw [parseValue.eq_def]
  simp [skipWs, List.dropWhile_cons, isJsonWs]

theorem parseValue_space (f : Nat) (x : List Char) :
    parseValue (f + 1) (' ' :: x) = parseValue (f + 1) x := by
  rw [parseValue.eq_def]
  conv_rhs => rw [parseValue.eq_def]
  simp only [skipWs_space]

theorem parseValue_objNE (f : Nat) (c : Char) (y : List Char)
    (hws : isJsonWs c = false) (hne : c ≠ '\x7d') :
    parseValue (f + 1) ('\x7b' :: c :: y) =
      (parseMembers f (c :: y)).map (fun p => (Json.obj p.1, p.2)) := by
  rw [parseValue.eq_def]
  simp only [show skipWs ('\x7b' :: c :: y) = '\x7b' :: c :: y from skipWs_not _ (by decide),
    show skipWs (c :: y) = c :: y from skipWs_not _ hws]
  simp [hne]

theorem parseMembers_strMember (f : Nat) (k v y : List Char) :
    parseMembers (f + 2)
        ('"' :: (k.flatMap escChar ++ '"' :: ':' :: ' ' :: '"' ::
          (v.flatMap escChar ++ '"' :: y))) =
      match skipWs y with
      | ',' :: r4 => (parseMembers (f + 1) (skipWs r4)).map
          (fun p => ((⟨k⟩, Json.str ⟨v⟩) :: p.1, p.2))
      | '\x7d' :: r4 => some ([(⟨k⟩, Json.str ⟨v⟩)], r4)
      | _ => none := by
  rw [parseMembers.eq_def]
  simp only [decodeStringBody_escape]
  rw [show skipWs (':' :: ' ' :: '"' :: (v.flatMap escChar ++ '"' :: y)) =
      ':' :: ' ' :: '"' :: (v.flatMap escChar ++ '"' :: y) from skipWs_not _ (by decide)]
  simp only [show (f : Nat) + 2 = (f + 1) + 1 from rfl, parseValue_space, parseValue_quote,
    decodeStringBody_escape]
  simp

theorem serializePlan_none_data (msg : String) :
    (serializePlan msg none).data =
      '\x7b' :: '"' :: ("commit_message".data.flatMap escChar ++ '"' :: ':' :: ' ' :: '"' ::
        (msg.data.flatMap escChar ++ '"' :: ['\x7d'])) := by
  rw [show ("commit_message".data).flatMap escChar = "commit_message".data from rfl]
  have hlit : ("\x7b\"commit_message\": " : String).data =
      '\x7b' :: '"' :: ("commit_message".data ++ ['"', ':', ' ']) := rfl
  have hjq : (jsonQuote msg).data = '"' :: (msg.data.flatMap escChar ++ ['"']) := rfl
  simp only [serializePlan, string_data_append, hlit, hjq,
    show ("" : String).data = [] from rfl, show ("\x7d" : String).data = ['\x7d'] from rfl]
  simp [List.append_assoc]

theorem serializePlan_some_data (msg b : String) :
    (serializePlan msg (some b)).data =
      '\x7b' :: '"' :: ("commit_message".data.flatMap escChar ++ '"' :: ':' :: ' ' :: '"' ::
        (msg.data.flatMap escChar ++ '"' :: ',' :: ' ' :: '"' ::
          ("branch_name".data.flatMap escChar ++ '"' :: ':' :: ' ' :: '"' ::
            (b.data.flatMap escChar ++ '"' :: ['\x7d'])))) := by
  rw [show ("commit_message".data).flatMap escChar = "commit_message".data from rfl]
  rw [show ("branch_name".data).flatMap escChar = "branch_name".data from rfl]
  have hlit : ("\x7b\"commit_message\": " : String).data =
      '\x7b' :: '"' :: ("commit_message".data ++ ['"', ':', ' ']) := rfl
  have hlit2 : (", \"branch_name\": " : String).data =
      ',' :: ' ' :: '"' :: ("branch_name".data ++ ['"', ':', ' ']) := rfl
  have hjq : ∀ s : String, (jsonQuote s).data = '"' :: (s.data.flatMap escChar ++ ['"']) :=
    fun _ => rfl
  simp only [serializePlan, string_data_append, hlit, hlit2, hjq,
    show ("\x7d" : String).data = ['\x7d'] from rfl]
  simp [List.append_assoc]

theorem parseValue_serializePlan (f : Nat) (msg : String) (branch : Option String) :
    parseValue (f + 4) ((serializePlan msg branch).data) =
      some (Json.obj (planKvs msg branch), []) := by
  cases branch with
  | none =>
    rw [serializePlan_none_data]
    rw [show f + 4 = (f + 3) + 1 from rfl]
    rw [parseValue_objNE _ _ _ (by decide) (by decide)]
    rw [show f + 3 = (f + 1) + 2 from rfl]
    rw [parseMembers_strMember]
    rw [show skipWs ['\x7d'] = ['\x7d'] from skipWs_not _ (by decide)]
    rfl
  | some b =>
    rw [serializePlan_some_data]
    rw [show f + 4 = (f + 3) + 1 from rfl]
    rw [parseValue_objNE _ _ _ (by decide) (by decide)]
    rw [show f + 3 = (f + 1) + 2 from rfl]
    rw [parseMembers_strMember]
    rw [show skipWs (',' :: ' ' :: '"' ::
        ("branch_name".data.flatMap escChar ++ '"' :: ':' :: ' ' :: '"' ::
          (b.data.flatMap escChar ++ '"' :: ['\x7d']))) =
        ',' :: ' ' :: '"' :: ("branch_name".data.flatMap escChar ++ '"' :: ':' :: ' ' :: '"' ::
          (b.data.flatMap escChar ++ '"' :: ['\x7d'])) from skipWs_not _ (by decide)]
    simp only [skipWs_space]
    rw [show skipWs ('"' :: ("branch_name".data.flatMap escChar ++ '"' :: ':' :: ' ' :: '"' ::
        (b.data.flatMap escChar ++ '"' :: ['\x7d']))) =
        '"' :: ("branch_name".data.flatMap escChar ++ '"' :: ':' :: ' ' :: '"' ::
          (b.data.flatMap escChar ++ '"' :: ['\x7d'])) from skipWs_not _ (by decide)]
    rw [show f + 1 + 1 = f + 2 from rfl]
    rw [parseMembers_strMember]
    rw [show skipWs ['\x7d'] = ['\x7d'] from skipWs_not _ (by decide)]
    rfl

theorem jsonParse_serializePlan (msg : String) (branch : Option String) :
    jsonParse (serializePlan msg branch) = some (Json.obj (planKvs msg branch)) := by
  unfold jsonParse
  obtain ⟨f, hf⟩ : ∃ f, (serializePlan msg branch).length + 1 = f + 4 := by
    refine ⟨(serializePlan msg branch).length + 1 - 4, ?_⟩
    have h19 : (19 : Nat) ≤ (serializePlan msg branch).length := by
      have : (serializePlan msg branch).length =
          ("\x7b\"commit_message\": " : String).length + (jsonQuote msg).length +
            (match branch with
             | some b => (", \"branch_name\": " ++ jsonQuote b : String).length
             | none => (("" : String)).length) + ("\x7d" : String).length := by
        cases branch <;> simp [serializePlan, String.length_append]
      rw [this]
      have : ("\x7b\"commit_message\": " : String).length = 19 := rfl
      omega
    omega
  rw [hf, parseValue_serializePlan]
  simp [skipWs]

theorem serializePlan_head (msg : String) (branch : Option String) :
    (serializePlan msg branch).data.head? = some '\x7b' := by
  cases branch with
  | none => rw [serializePlan_none_data]; rfl
  | some b => rw [serializePlan_some_data]; rfl

theorem serializePlan_last (msg : String) (branch : Option String) :
    (serializePlan msg branch).data.getLast? = some '\x7d' := by
  have hdata : (serializePlan msg branch).data =
      ("\x7b\"commit_message\": " ++ jsonQuote msg ++
        (match branch with
         | some b => ", \"branch_name\": " ++ jsonQuote b
         | none => "")).data ++ ['\x7d'] := by
    simp [serializePlan, string_data_append]
  rw [hdata]
  exact List.getLast?_concat _

theorem normalizeResponse_serializePlan (msg : String) (branch : Option String) :
    normalizeResponse (serializePlan msg branch) = serializePlan msg branch := by
  unfold normalizeResponse
  have hstrip : stripChars (serializePlan msg branch).data = (serializePlan msg branch).data := by
    apply stripChars_eq_self
    · intro c hc
      rw [serializePlan_head] at hc
      cases hc
      decide
    · intro c hc
      rw [serializePlan_last] at hc
      cases hc
      decide
  rw [hstrip]
  have hf : stripFences (serializePlan msg branch).data = (serializePlan msg branch).data := by
    apply stripFences_id
    · exact isPrefixOf_false_of_head rfl (serializePlan_head msg branch) (by decide)
    · exact isSuffixOf_false_of_getLast rfl (serializePlan_last msg branch) (by decide)
  rw [hf, hstrip]

theorem normalizeResponse_fenceWrap (msg : String) (branch : Option String) :
    normalizeResponse (fenceWrap (serializePlan msg branch)) = serializePlan msg branch := by
  unfold normalizeResponse fenceWrap
  have hdata : ("```json\n" ++ serializePlan msg branch ++ "\n```").data =
      "```json".data ++ (('\n' :: ((serializePlan msg branch).data ++ ['\n'])) ++ "```".data) := by
    simp only [string_data_append, show ("```json\n" : String).data = "```json".data ++ ['\n']
      from rfl, show ("\n```" : String).data = '\n' :: "```".data from rfl]
    simp [List.append_assoc]
  rw [hdata]
  have hstrip1 : stripChars ("```json".data ++ (('\n' :: ((serializePlan msg branch).data ++
      ['\n'])) ++ "```".data)) = "```json".data ++ (('\n' :: ((serializePlan msg branch).data ++
      ['\n'])) ++ "```".data) := by
    apply stripChars_eq_self
    · intro c hc
      cases hc
      decide
    · intro c hc
      rw [List.getLast?_append_of_ne_nil _ (by simp),
        List.getLast?_append_of_ne_nil _ (by decide)] at hc
      cases hc
      decide
  rw [hstrip1, stripFences_fenced]
  have hpad : stripChars ('\n' :: ((serializePlan msg branch).data ++ ['\n'])) =
      (serializePlan msg branch).data := by
    apply stripChars_pad
    · intro c hc
      rw [serializePlan_head] at hc
      cases hc
      decide
    · intro c hc
      rw [serializePlan_last] at hc
      cases hc
      decide
  rw [hpad]

theorem pyDictGet_planKvs_commit (msg : String) (branch : Option String) :
    pyDictGet (planKvs msg branch) "commit_message" = some (Json.str msg) := by
  cases branch <;> simp [planKvs, pyDictGet]

theorem jsonGetOrNone_planKvs_branch (msg : String) (branch : Option String) :
    jsonGetOrNone (planKvs msg branch) "branch_name" = branch.map Json.str := by
  cases branch <;> simp [planKvs, pyDictGet, jsonGetOrNone]

theorem parse_response_roundTrip (msg : String) (branch : Option String)
    (wantsBranch fenced : Bool) :
    parse_response
        (if fenced then fenceWrap (serializePlan msg branch) else serializePlan msg branch)
        wantsBranch =
      ParseResult.ok (Json.str msg) (if wantsBranch then branch.map Json.str else none) := by
  unfold parse_response
  have hnorm : normalizeResponse
      (if fenced then fenceWrap (serializePlan msg branch) else serializePlan msg branch) =
      serializePlan msg branch := by
    cases fenced
    · simpa using normalizeResponse_serializePlan msg branch
    · simpa using normalizeResponse_fenceWrap msg branch
  rw [hnorm, jsonParse_serializePlan]
  simp only [pyDictGet_planKvs_commit, jsonGetOrNone_planKvs_branch]

/-! ## Occurrence of blocks in the built prompt -/

/-- The identifying first line of the branch-name specification block. -/
def branchSpecMarker : String := "## Branch Name Specification"

/-- The header line of the extra-information block. -/
def extraInfoMarker : String := "# Extra Information"

/-- Everything `build_prompt` emits before the newline that follows
`format_str`; fully concrete for each value of the branch flag. -/
def promptFixedHead (branch : Bool) : String :=
  promptTask ++ (if branch then promptBranchLine else "") ++ promptRequirements ++
    (if branch then promptBranchSpec else "") ++ promptOutputHead ++ format_str branch

theorem notInfix_of_containsSub {m h : List Char} (hc : containsSub m h = false) :
    ¬ m <:+: h := by
  intro hi
  have ht := (containsSub_iff m h).mpr hi
  rw [hc] at ht
  cases ht

/-- The prompt decomposes into newline-separated segments: the fixed head,
the extra-information section, and the context section with the verbatim
status and diff. -/
theorem build_prompt_data_decomp (s d : String) (a : Args) (c : Config) :
    (build_prompt s d a c).data =
      (promptFixedHead a.branch).data ++ '\n' ::
        ((extraSection a c).data ++
          (("# Context\n## Git status:" : String).data ++ '\n' ::
            (s.data ++ '\n' ::
              (("## Git diff:" : String).data ++ '\n' ::
                (d.data ++ '\n' :: []))))) := by
  have h1 : ("\n" : String).data = ['\n'] := rfl
  have h2 : ("# Context\n## Git status:\n" : String).data =
      ("# Context\n## Git status:" : String).data ++ ['\n'] := rfl
  have h3 : ("\n## Git diff:\n" : String).data =
      '\n' :: (("## Git diff:" : String).data ++ ['\n']) := rfl
  simp only [build_prompt, promptFixedHead, string_data_append, h1, h2, h3]
  simp [List.append_assoc]

theorem extraSection_notInfix {m : List Char} (a : Args) (c : Config) {rest : List Char}
    (hm : m ≠ []) (hnl : '\n' ∉ m)
    (hhdr : ¬ m <:+: extraInfoMarker.data)
    (hcfg : ¬ m <:+: (c.extra_info.getD "").data)
    (harg : ¬ m <:+: (a.extra_info.getD "").data)
    (hrest : ¬ m <:+: rest) :
    ¬ m <:+: (extraSection a c).data ++ rest := by
  unfold extraSection
  by_cases h1 : (pyTruthyOpt a.extra_info || pyTruthyOpt c.extra_info) = true
  · rw [if_pos h1]
    by_cases h2 : pyTruthyOpt c.extra_info = true
    · by_cases h3 : pyTruthyOpt a.extra_info = true
      · rw [if_pos h2, if_pos h3]
        have hshape : ("# Extra Information\n" ++ ((c.extra_info.getD "") ++ "\n") ++
            ((a.extra_info.getD "") ++ "\n")).data ++ rest =
            extraInfoMarker.data ++ '\n' :: ((c.extra_info.getD "").data ++ '\n' ::
              ((a.extra_info.getD "").data ++ '\n' :: rest)) := by
          simp only [string_data_append,
            show ("# Extra Information\n" : String).data = extraInfoMarker.data ++ ['\n']
              from rfl,
            show ("\n" : String).data = ['\n'] from rfl]
          simp [List.append_assoc, extraInfoMarker]
        rw [hshape]
        exact noNlChain hm hnl hhdr (noNlChain hm hnl hcfg (noNlChain hm hnl harg hrest))
      · rw [if_pos h2, if_neg h3]
        have hshape : ("# Extra Information\n" ++ ((c.extra_info.getD "") ++ "\n") ++
            "").data ++ rest =
            extraInfoMarker.data ++ '\n' :: ((c.extra_info.getD "").data ++ '\n' :: rest) := by
          simp only [string_data_append,
            show ("# Extra Information\n" : String).data = extraInfoMarker.data ++ ['\n']
              from rfl,
            show ("\n" : String).data = ['\n'] from rfl,
            show ("" : String).data = [] from rfl]
          simp [List.append_assoc, extraInfoMarker]
        rw [hshape]
        exact noNlChain hm hnl hhdr (noNlChain hm hnl hcfg hrest)
    · by_cases h3 : pyTruthyOpt a.extra_info = true
      · rw [if_pos h3, if_neg h2]
        have hshape : ("# Extra Information\n" ++ "" ++
            ((a.extra_info.getD "") ++ "\n")).data ++ rest =
            extraInfoMarker.data ++ '\n' :: ((a.extra_info.getD "").data ++ '\n' :: rest) := by
          simp only [string_data_append,
            show ("# Extra Information\n" : String).data = extraInfoMarker.data ++ ['\n']
              from rfl,
            show ("\n" : String).data = ['\n'] from rfl,
            show ("" : String).data = [] from rfl]
          simp [List.append_assoc, extraInfoMarker]
        rw [hshape]
        exact noNlChain hm hnl hhdr (noNlChain hm hnl harg hrest)
      · exfalso
        rw [Bool.or_eq_true] at h1
        rcases h1 with h | h
        · exact h3 h
        · exact h2 h
  · rw [if_neg h1]
    simpa using hrest

/-- Master lemma: a newline-free needle absent from the fixed head, the
extra-info texts, the context headers and the status/diff texts does not
occur anywhere in the built prompt. -/
theorem prompt_marker_notInfix {m : List Char} (s d : String) (a : Args) (c : Config)
    (hm : m ≠ []) (hnl : '\n' ∉ m)
    (hhead : ¬ m <:+: (promptFixedHead a.branch).data)
    (hhdr : ¬ m <:+: extraInfoMarker.data)
    (hcfg : ¬ m <:+: (c.extra_info.getD "").data)
    (harg : ¬ m <:+: (a.extra_info.getD "").data)
    (hctx1 : ¬ m <:+: ("# Context\n## Git status:" : String).data)
    (hctx2 : ¬ m <:+: ("## Git diff:" : String).data)
    (hs : ¬ m <:+: s.data) (hd : ¬ m <:+: d.data) :
    ¬ m <:+: (build_prompt s d a c).data := by
  rw [build_prompt_data_decomp]
  exact noNlChain hm hnl hhead
    (extraSection_notInfix a c hm hnl hhdr hcfg harg
      (noNlChain hm hnl hctx1
        (noNlChain hm hnl hs
          (noNlChain hm hnl hctx2
            (noNlChain hm hnl hd (notInfixNil hm))))))

theorem branchSpec_in_prompt (s d : String) (a : Args) (c : Config) (hb : a.branch = true) :
    branchSpecMarker.data <:+: (build_prompt s d a c).data := by
  have h1 : branchSpecMarker.data <:+: promptBranchSpec.data := by
    have hp : branchSpecMarker.data.isPrefixOf promptBranchSpec.data = true := by decide
    exact ( List.isPrefixOf_iff_prefix.mp hp).isInfix
  have h2 : promptBranchSpec.data <:+: (build_prompt s d a c).data := by
    refine ⟨(promptTask ++ promptBranchLine ++ promptRequirements).data,
      (promptOutputHead ++ format_str true ++ "\n" ++ extraSection a c ++
        "# Context\n## Git status:\n" ++ s ++ "\n## Git diff:\n" ++ d ++ "\n").data, ?_⟩
    simp [build_prompt, string_data_append, hb, List.append_assoc]
  exact h1.trans h2

theorem extraInfo_in_prompt (s d : String) (a : Args) (c : Config)
    (h : (pyTruthyOpt a.extra_info || pyTruthyOpt c.extra_info) = true) :
    extraInfoMarker.data <:+: (build_prompt s d a c).data := by
  obtain ⟨X, hX⟩ : ∃ X, (extraSection a c).data = extraInfoMarker.data ++ '\n' :: X := by
    unfold extraSection
    rw [if_pos h]
    refine ⟨((if pyTruthyOpt c.extra_info = true then (c.extra_info.getD "") ++ "\n"
      else "") ++ (if pyTruthyOpt a.extra_info = true then (a.extra_info.getD "") ++ "\n"
      else "")).data, ?_⟩
    simp only [string_data_append,
      show ("# Extra Information\n" : String).data = extraInfoMarker.data ++ ['\n'] from rfl]
    simp [List.append_assoc, extraInfoMarker]
  rw [build_prompt_data_decomp, hX]
  refine ⟨(promptFixedHead a.branch).data ++ ['\n'],
    '\n' :: (X ++ (("# Context\n## Git status:" : String).data ++ '\n' ::
      (s.data ++ '\n' :: (("## Git diff:" : String).data ++ '\n' ::
        (d.data ++ '\n' :: []))))), ?_⟩
  simp [List.append_assoc]

theorem extraInfo_order_in_prompt (s d : String) (a : Args) (c : Config)
    (hc : pyTruthyOpt c.extra_info = true) (ha : pyTruthyOpt a.extra_info = true) :
    ∃ p q, (build_prompt s d a c).data =
      p ++ ((c.extra_info.getD "").data ++ '\n' :: ((a.extra_info.getD "").data ++ '\n' :: q)) := by
  have hcond : (pyTruthyOpt a.extra_info || pyTruthyOpt c.extra_info) = true := by
    rw [ha]
    rfl
  rw [build_prompt_data_decomp]
  unfold extraSection
  rw [if_pos hcond, if_pos hc, if_pos ha]
  refine ⟨(promptFixedHead a.branch).data ++ '\n' :: extraInfoMarker.data ++ ['\n'],
    ("# Context\n## Git status:" : String).data ++ '\n' ::
      (s.data ++ '\n' :: (("## Git diff:" : String).data ++ '\n' ::
        (d.data ++ '\n' :: []))), ?_⟩
  simp only [string_data_append,
    show ("# Extra Information\n" : String).data = extraInfoMarker.data ++ ['\n'] from rfl,
    show ("\n" : String).data = ['\n'] from rfl]
  simp [List.append_assoc, extraInfoMarker]

theorem extraText_notInfix_of_falsy {m : List Char} (o : Option String)
    (hm : m ≠ []) (h : pyTruthyOpt o = false) : ¬ m <:+: (o.getD "").data := by
  cases o with
  | none => simpa using notInfixNil hm
  | some s =>
    have hs : s = "" := by
      simpa [pyTruthyOpt] using h
    subst hs
    simpa using notInfixNil hm

theorem prompt_marker_notInfix_noExtras {m : List Char} (s d : String) (a : Args) (c : Config)
    (hm : m ≠ []) (hnl : '\n' ∉ m)
    (hhead : ¬ m <:+: (promptFixedHead a.branch).data)
    (hctx1 : ¬ m <:+: ("# Context\n## Git status:" : String).data)
    (hctx2 : ¬ m <:+: ("## Git diff:" : String).data)
    (hs : ¬ m <:+: s.data) (hd : ¬ m <:+: d.data)
    (hcond : (pyTruthyOpt a.extra_info || pyTruthyOpt c.extra_info) = false) :
    ¬ m <:+: (build_prompt s d a c).data := by
  rw [build_prompt_data_decomp]
  have hE : (extraSection a c).data = [] := by
    unfold extraSection
    rw [if_neg (by rw [hcond]; exact Bool.false_ne_true)]
  rw [hE, List.nil_append]
  exact noNlChain hm hnl hhead
    (noNlChain hm hnl hctx1
      (noNlChain hm hnl hs
        (noNlChain hm hnl hctx2
          (noNlChain hm hnl hd (notInfixNil hm)))))

theorem head_dropWhile_not (p : Char → Bool) (w : List Char) :
    ∀ c, ((w.dropWhile p).head? = some c) → p c = false := by
  induction w with
  | nil => intro c hc; simp at hc
  | cons a t ih =>
    intro c hc
    rw [List.dropWhile_cons] at hc
    by_cases hp : p a = true
    · rw [if_pos hp] at hc
      exact ih c hc
    · rw [if_neg hp] at hc
      simp only [List.head?_cons, Option.some.injEq] at hc
      rw [← hc]
      exact Bool.eq_false_iff.mpr hp

theorem stripChars_head (l : List Char) :
    ∀ c, ((stripChars l).head? = some c) → isPySpace c = false := by
  intro c hc
  unfold stripChars at hc
  rw [List.head?_reverse] at hc
  have h2 : ((l.dropWhile isPySpace).reverse.dropWhile isPySpace).getLast? = some c := hc
  rcases List.getLast?_eq_some_iff.mp h2 with ⟨ys, hys⟩
  have hsuf : ((l.dropWhile isPySpace).reverse.dropWhile isPySpace) <:+
      (l.dropWhile isPySpace).reverse := List.dropWhile_suffix _
  obtain ⟨pre, hpre⟩ := hsuf
  have hl2 : (l.dropWhile isPySpace).reverse.reverse =
      (pre ++ (l.dropWhile isPySpace).reverse.dropWhile isPySpace).reverse := by
    rw [hpre]
  rw [List.reverse_reverse, List.reverse_append, hys, List.reverse_append] at hl2
  have hhead : (l.dropWhile isPySpace).head? = some c := by
    rw [hl2]
    simp
  exact head_dropWhile_not _ _ _ hhead

theorem stripChars_last (l : List Char) :
    ∀ c, ((stripChars l).getLast? = some c) → isPySpace c = false := by
  intro c hc
  unfold stripChars at hc
  rw [List.getLast?_reverse] at hc
  exact head_dropWhile_not _ _ _ hc

theorem stripChars_idem (l : List Char) : stripChars (stripChars l) = stripChars l :=
  stripChars_eq_self (stripChars_head l) (stripChars_last l)

theorem stripChars_of_ticks_suffix {l : List Char} (h : ("```" : String).data <:+ l) :
    stripChars l = l.dropWhile isPySpace ∧
      ("```" : String).data <:+ stripChars l := by
  obtain ⟨y, hy⟩ := h
  have hstep1 : l.dropWhile isPySpace = (y.dropWhile isPySpace) ++ ("```" : String).data ∨
      l.dropWhile isPySpace = ("```" : String).data := by
    rw [← hy, List.dropWhile_append]
    by_cases he : (y.dropWhile isPySpace).isEmpty
    · right
      rw [if_pos he]
      rfl
    · left
      rw [if_neg he]
  have hsuffix1 : ("```" : String).data <:+ l.dropWhile isPySpace := by
    rcases hstep1 with h1 | h1
    · rw [h1]; exact List.suffix_append _ _
    · rw [h1]
  obtain ⟨z, hz⟩ := id hsuffix1
  have hrev : (l.dropWhile isPySpace).reverse =
      '`' :: ('`' :: ('`' :: z.reverse)) := by
    rw [← hz]
    simp
  have hstrip : stripChars l = l.dropWhile isPySpace := by
    unfold stripChars
    rw [hrev]
    rw [List.dropWhile_cons, show isPySpace '`' = false from rfl]
    simp only [Bool.false_eq_true, if_false]
    rw [← hrev, List.reverse_reverse]
  constructor
  · exact hstrip
  · rw [hstrip]
    exact hsuffix1

/-! ## Claim theorems -/

/-- The argv of the commit step. -/
def commitCmd (m : String) : List String := ["git", "commit", "-m", m]

/-- The argv of the branch-creation step. -/
def checkoutCmd (b : String) : List String := ["git", "checkout", "-b", b]

/-- The argv of the push step. -/
def pushCmd (b : String) : List String := ["git", "push", "-u", "origin", b]

/-- C2: the command executor runs commit, then branch creation (only when a
branch name is present), then push (only when the push option is set),
strictly in that order, short-circuiting on the first failure: a commit
failure prevents branch creation and push; a branch failure prevents push
while the already-made commit stays in the trace with no rollback command
after it. -/
theorem claim_C2 (m : String) (b : Option String) (a : Args)
    (run : List String → Option String) (hb : ∀ s, b = some s → s ≠ "") :
    ((run (commitCmd m)).isSome = false →
      execute_git_commands (Json.str m) (b.map Json.str) a run =
        ExecOut.ret false [commitCmd m]) ∧
    (∀ s, b = some s → (run (commitCmd m)).isSome = true →
      (run (checkoutCmd s)).isSome = false →
      execute_git_commands (Json.str m) (b.map Json.str) a run =
        ExecOut.ret false [commitCmd m, checkoutCmd s]) ∧
    (∀ s, b = some s → (run (commitCmd m)).isSome = true →
      (run (checkoutCmd s)).isSome = true →
      execute_git_commands (Json.str m) (b.map Json.str) a run =
        (if a.push then
          ExecOut.ret (run (pushCmd s)).isSome [commitCmd m, checkoutCmd s, pushCmd s]
        else ExecOut.ret true [commitCmd m, checkoutCmd s])) ∧
    (b = none → (run (commitCmd m)).isSome = true →
      execute_git_commands (Json.str m) (b.map Json.str) a run =
        (if a.push then ExecOut.ret (run (pushCmd "main")).isSome [commitCmd m, pushCmd "main"]
        else ExecOut.ret true [commitCmd m])) := by
  refine ⟨?_, ?_, ?_, ?_⟩
  · intro hfail
    simp only [commitCmd] at hfail
    simp [execute_git_commands, commitCmd, hfail]
  · intro s hs hcommit hcheckout
    subst hs
    have hne : s ≠ "" := hb s rfl
    simp only [commitCmd, checkoutCmd] at hcommit hcheckout
    simp [execute_git_commands, executeBranchStep, commitCmd, checkoutCmd, hcommit, hcheckout,
      pyTruthyJson, bne_iff_ne, hne]
  · intro s hs hcommit hcheckout
    subst hs
    have hne : s ≠ "" := hb s rfl
    simp only [commitCmd, checkoutCmd, pushCmd] at hcommit hcheckout ⊢
    cases hps : (run ["git", "push", "-u", "origin", s]).isSome <;>
      simp [execute_git_commands, executeBranchStep, executePushStep, pyTruthyJson,
        bne_iff_ne, hne, hcommit, hcheckout, hps]
  · intro hbn hcommit
    subst hbn
    simp only [commitCmd, pushCmd] at hcommit ⊢
    cases hps : (run ["git", "push", "-u", "origin", "main"]).isSome <;>
      simp [execute_git_commands, executeBranchStep, executePushStep, pyTruthyJson,
        hcommit, hps]

/-- Witness for C2 at a concrete plan and world: the checkout step fails, so
the trace is exactly commit followed by checkout and push is never tried. -/
theorem claim_C2_witness :
    execute_git_commands (Json.str "m") ((some "b").map Json.str)
      ⟨false, true, true, true, none, none⟩
      (fun argv => if argv = checkoutCmd "b" then none else some "") =
      ExecOut.ret false [commitCmd "m", checkoutCmd "b"] := by
  exact (claim_C2 "m" (some "b") ⟨false, true, true, true, none, none⟩
    (fun argv => if argv = checkoutCmd "b" then none else some "")
    (by intro s hs; cases hs; decide)).2.1 "b" rfl (by decide) (by decide)

/-- C6: with the push option set, the push step targets the plan's branch
name when one is present and the fixed fallback "main" otherwise; a push
failure yields `False` while the commit and branch-creation commands remain
in the trace, with nothing after the failing push. -/
theorem claim_C6 (m : String) (b : Option String) (a : Args)
    (run : List String → Option String) (hpush : a.push = true)
    (hb : ∀ s, b = some s → s ≠ "") :
    (∀ s, b = some s → (run (commitCmd m)).isSome = true →
      (run (checkoutCmd s)).isSome = true →
      execute_git_commands (Json.str m) (b.map Json.str) a run =
        ExecOut.ret (run (pushCmd s)).isSome [commitCmd m, checkoutCmd s, pushCmd s]) ∧
    (b = none → (run (commitCmd m)).isSome = true →
      execute_git_commands (Json.str m) (b.map Json.str) a run =
        ExecOut.ret (run (pushCmd "main")).isSome [commitCmd m, pushCmd "main"]) := by
  constructor
  · intro s hs hcommit hcheckout
    subst hs
    have hne : s ≠ "" := hb s rfl
    simp only [commitCmd, checkoutCmd, pushCmd] at hcommit hcheckout ⊢
    cases hps : (run ["git", "push", "-u", "origin", s]).isSome <;>
      simp [execute_git_commands, executeBranchStep, executePushStep, pyTruthyJson,
        bne_iff_ne, hne, hcommit, hcheckout, hpush, hps]
  · intro hbn hcommit
    subst hbn
    simp only [commitCmd, pushCmd] at hcommit ⊢
    cases hps : (run ["git", "push", "-u", "origin", "main"]).isSome <;>
      simp [execute_git_commands, executeBranchStep, executePushStep, pyTruthyJson,
        hcommit, hpush, hps]

/-- Witness for C6: concrete plan without a branch name; the push targets
"main" and its failure leaves the commit in the trace. -/
theorem claim_C6_witness :
    execute_git_commands (Json.str "m") (Option.map Json.str none)
      ⟨false, true, true, false, none, none⟩
      (fun argv => if argv = pushCmd "main" then none else some "") =
      ExecOut.ret false [commitCmd "m", pushCmd "main"] := by
  have h := (claim_C6 "m" none ⟨false, true, true, false, none, none⟩
    (fun argv => if argv = pushCmd "main" then none else some "") rfl
    (by intro s hs; cases hs)).2 rfl (by decide)
  simpa using h

/-- C7: the staged-diff query never propagates a backend failure (it
degrades to the empty diff), while a status-query failure is returned as the
`none` that the orchestrator treats as the fatal not-a-repository
condition. -/
theorem claim_C7 (c : Config) (w : World) :
    (w.run (gitDiffCommand c) = none → get_git_diff c w = "") ∧
    (w.run gitStatusCommand = none → get_git_status w = none) := by
  constructor
  · intro h
    simp [get_git_diff, h]
  · intro h
    simp [get_git_status, h]

/-- Witness for C7 in a world where every git invocation fails. -/
theorem claim_C7_witness :
    get_git_diff ⟨some "k", none, none, none, [], none⟩
        ⟨fun _ => none, none, "", "", true⟩ = "" ∧
      get_git_status ⟨fun _ => none, none, "", "", true⟩ = none :=
  ⟨(claim_C7 ⟨some "k", none, none, none, [], none⟩
      ⟨fun _ => none, none, "", "", true⟩).1 rfl,
    (claim_C7 ⟨some "k", none, none, none, [], none⟩
      ⟨fun _ => none, none, "", "", true⟩).2 rfl⟩

/-- C8: the prompt builder is deterministic and side-effect-free — it is a
pure function of its four inputs, so any two invocations on identical
inputs yield byte-identical prompt strings. -/
theorem claim_C8 (s d s' d' : String) (a a' : Args) (c c' : Config)
    (hs : s = s') (hd : d = d') (ha : a = a') (hc : c = c') :
    build_prompt s d a c = build_prompt s' d' a' c' := by
  subst hs
  subst hd
  subst ha
  subst hc
  rfl

/-- Witness for C8 at concrete inputs. -/
theorem claim_C8_witness :
    build_prompt "M x\n" "patch" ⟨false, false, true, false, none, none⟩
        ⟨some "k", none, none, none, [], none⟩ =
      build_prompt "M x\n" "patch" ⟨false, false, true, false, none, none⟩
        ⟨some "k", none, none, none, [], none⟩ :=
  claim_C8 "M x\n" "patch" "M x\n" "patch" ⟨false, false, true, false, none, none⟩
    ⟨false, false, true, false, none, none⟩ ⟨some "k", none, none, none, [], none⟩
    ⟨some "k", none, none, none, [], none⟩ rfl rfl rfl rfl

/-- C9: when the status query fails the pipeline halts before prompt
construction — the run exits cleanly having executed only the status query,
with no prompt built, no backend call and no other git command. -/
theorem claim_C9 (a : Args) (c : Config) (w : World)
    (hinit : a.init = false) (hkey : pyTruthyOpt c.openai_api_key = true)
    (hstatus : w.run gitStatusCommand = none) :
    mainRun a c w = (0, [Event.runCmd gitStatusCommand]) ∧
    Event.promptBuilt ∉ (mainRun a c w).2 ∧
    Event.backendCalled ∉ (mainRun a c w).2 ∧
    (∀ argv, Event.runCmd argv ∈ (mainRun a c w).2 → argv = gitStatusCommand) := by
  have hmain : mainRun a c w = (0, [Event.runCmd gitStatusCommand]) := by
    unfold mainRun
    rw [if_neg (by rw [hinit]; exact Bool.false_ne_true)]
    rw [if_neg (by rw [hkey]; simp)]
    unfold get_git_status
    rw [hstatus]
  refine ⟨hmain, ?_, ?_, ?_⟩
  · rw [hmain]
    simp
  · rw [hmain]
    simp
  · intro argv hargv
    rw [hmain] at hargv
    simpa using hargv

/-- Witness for C9 in a world whose status query fails. -/
theorem claim_C9_witness :
    mainRun ⟨false, false, true, false, none, none⟩ ⟨some "k", none, none, none, [], none⟩
        ⟨fun _ => none, none, "", "", true⟩ =
      (0, [Event.runCmd gitStatusCommand]) :=
  (claim_C9 ⟨false, false, true, false, none, none⟩ ⟨some "k", none, none, none, [], none⟩
    ⟨fun _ => none, none, "", "", true⟩ rfl rfl rfl).1

/-- C1 counterexample: the payload with `commit_message` present but equal
to the empty string is well-typed JSON on which the claim demands the
`(None, None)` rejection; the code instead returns the populated pair
`("", None)`. -/
theorem claim_C1_counterexample :
    parse_response "\x7b\"commit_message\": \"\"\x7d" false =
        ParseResult.ok (Json.str "") none ∧
      parse_response "\x7b\"commit_message\": \"\"\x7d" false ≠ ParseResult.malformed := by
  constructor
  · rfl
  · intro h
    rw [show parse_response "\x7b\"commit_message\": \"\"\x7d" false =
      ParseResult.ok (Json.str "") none from rfl] at h
    cases h

/-- C1 amended: only a JSON decode failure produces the `(None, None)`
rejection; a well-formed object without `commit_message` raises an uncaught
`KeyError`, a well-formed non-object document raises an uncaught
`TypeError`, and any present `commit_message` value — empty, non-string,
whatever — is accepted and returned unvalidated. -/
theorem claim_C1 (raw : String) (wantsBranch : Bool) :
    (jsonParse (normalizeResponse raw) = none →
      parse_response raw wantsBranch = ParseResult.malformed) ∧
    (∀ kvs, jsonParse (normalizeResponse raw) = some (Json.obj kvs) →
      pyDictGet kvs "commit_message" = none →
      parse_response raw wantsBranch = ParseResult.exn PyError.keyError) ∧
    (∀ j, jsonParse (normalizeResponse raw) = some j → (∀ kvs, j ≠ Json.obj kvs) →
      parse_response raw wantsBranch = ParseResult.exn PyError.typeError) ∧
    (∀ kvs v, jsonParse (normalizeResponse raw) = some (Json.obj kvs) →
      pyDictGet kvs "commit_message" = some v →
      parse_response raw wantsBranch =
        ParseResult.ok v (if wantsBranch then jsonGetOrNone kvs "branch_name" else none)) := by
  refine ⟨?_, ?_, ?_, ?_⟩
  · intro h
    simp [parse_response, h]
  · intro kvs hj hget
    simp [parse_response, hj, hget]
  · intro j hj hno
    rw [parse_response, hj]
    cases j with
    | obj kvs => exact absurd rfl (hno kvs)
    | null => rfl
    | bool b => rfl
    | num n => rfl
    | fnum lit => rfl
    | str s => rfl
    | arr l => rfl
  · intro kvs v hj hget
    simp [parse_response, hj, hget]

/-- Witness for the amended C1: a non-JSON reply is rejected as malformed, a
well-formed object missing `commit_message` raises `KeyError`, and a float
`commit_message` — a document `json.loads` decodes — is accepted and
returned in the plan, not rejected. -/
theorem claim_C1_witness :
    parse_response "not json" false = ParseResult.malformed ∧
      parse_response "\x7b\"a\": 1\x7d" false = ParseResult.exn PyError.keyError ∧
      parse_response "\x7b\"commit_message\": 1.5\x7d" false =
        ParseResult.ok (Json.fnum "1.5") none :=
  ⟨(claim_C1 "not json" false).1 rfl,
    (claim_C1 "\x7b\"a\": 1\x7d" false).2.1 [("a", Json.num 1)] rfl rfl,
    by
      have h := (claim_C1 "\x7b\"commit_message\": 1.5\x7d" false).2.2.2
        [("commit_message", Json.fnum "1.5")] (Json.fnum "1.5") rfl rfl
      simpa using h⟩

/-- C4: round-trip — a CommitPlan-shaped object with a string
`commit_message` and optionally a string `branch_name`, serialized bare or
wrapped in a markdown code fence, is parsed back to exactly the encoded
commit message, and to exactly the encoded branch name when a branch was
requested. -/
theorem claim_C4 (msg : String) (branch : Option String) (wantsBranch fenced : Bool) :
    parse_response
        (if fenced then fenceWrap (serializePlan msg branch) else serializePlan msg branch)
        wantsBranch =
      ParseResult.ok (Json.str msg) (if wantsBranch then branch.map Json.str else none) :=
  parse_response_roundTrip msg branch wantsBranch fenced

set_option maxRecDepth 40000 in
/-- C5: in the built prompt, the branch-name specification block appears iff
`suggestBranch` is set, the extra-information block appears iff at least one
of the configuration and run extra-info texts is non-empty, and when both
are non-empty the configuration's text precedes the run's text.  Occurrence
is infix occurrence of the block's identifying header line; the hypotheses
state that the free-form inputs do not themselves spell those header
lines. -/
theorem claim_C5 (s d : String) (a : Args) (c : Config)
    (hs1 : ¬ branchSpecMarker.data <:+: s.data)
    (hd1 : ¬ branchSpecMarker.data <:+: d.data)
    (hc1 : ¬ branchSpecMarker.data <:+: (c.extra_info.getD "").data)
    (ha1 : ¬ branchSpecMarker.data <:+: (a.extra_info.getD "").data)
    (hs2 : ¬ extraInfoMarker.data <:+: s.data)
    (hd2 : ¬ extraInfoMarker.data <:+: d.data) :
    (branchSpecMarker.data <:+: (build_prompt s d a c).data ↔ a.branch = true) ∧
    (extraInfoMarker.data <:+: (build_prompt s d a c).data ↔
      (pyTruthyOpt a.extra_info || pyTruthyOpt c.extra_info) = true) ∧
    ((pyTruthyOpt c.extra_info = true → pyTruthyOpt a.extra_info = true →
      ∃ p q, (build_prompt s d a c).data =
        p ++ ((c.extra_info.getD "").data ++ '\n' ::
          ((a.extra_info.getD "").data ++ '\n' :: q)))) := by
  refine ⟨⟨?_, ?_⟩, ⟨?_, ?_⟩, ?_⟩
  · intro hocc
    by_contra hbr
    have hbf : a.branch = false := by
      cases hab : a.branch
      · rfl
      · exact absurd hab hbr
    refine prompt_marker_notInfix s d a c (by decide) (by decide) ?_
      (notInfix_of_containsSub (by decide)) hc1 ha1
      (notInfix_of_containsSub (by decide)) (notInfix_of_containsSub (by decide))
      hs1 hd1 hocc
    rw [hbf]
    exact notInfix_of_containsSub (by decide)
  · intro hb
    exact branchSpec_in_prompt s d a c hb
  · intro hocc
    by_contra hcond
    have hcf : (pyTruthyOpt a.extra_info || pyTruthyOpt c.extra_info) = false := by
      cases hab : (pyTruthyOpt a.extra_info || pyTruthyOpt c.extra_info)
      · rfl
      · exact absurd hab hcond
    refine prompt_marker_notInfix_noExtras s d a c (by decide) (by decide) ?_
      (notInfix_of_containsSub (by decide)) (notInfix_of_containsSub (by decide))
      hs2 hd2 hcf hocc
    cases hab : a.branch
    · exact notInfix_of_containsSub (by decide)
    · exact notInfix_of_containsSub (by decide)
  · intro hcond
    exact extraInfo_in_prompt s d a c hcond
  · intro hc ha
    exact extraInfo_order_in_prompt s d a c hc ha

set_option maxRecDepth 40000 in
/-- Witness for C5 at concrete inputs with the branch flag set and both
extra-info texts non-empty: the branch-specification block does appear. -/
theorem claim_C5_witness :
    branchSpecMarker.data <:+:
      (build_prompt "M x\n" "patch" ⟨false, false, true, true, some "run info", none⟩
        ⟨some "k", none, none, none, [], some "cfg info"⟩).data :=
  ((claim_C5 "M x\n" "patch" ⟨false, false, true, true, some "run info", none⟩
      ⟨some "k", none, none, none, [], some "cfg info"⟩
      (notInfix_of_containsSub (by decide)) (notInfix_of_containsSub (by decide))
      (notInfix_of_containsSub (by decide)) (notInfix_of_containsSub (by decide))
      (notInfix_of_containsSub (by decide)) (notInfix_of_containsSub (by decide))).1).mpr rfl

/-- C10: the parser's two fence-stripping operations are independent, not
paired.  (a) For a raw string ending in "```", the trailing three characters
are removed even when no leading "```json" marker is present.  (b) A bare
leading "```" fence (without the json tag) is never stripped.  Consequently
(c) a payload fenced with plain "```" on both sides is rejected before
decoding, and (d) an unfenced payload whose text ends in "```" is altered
before decoding. -/
theorem claim_C10 (raw : String) :
    (("```" : String).data <:+ raw.data →
      ¬ ("```json" : String).data <+: stripChars raw.data →
      normalizeResponse raw =
        ⟨stripChars ((stripChars raw.data).take ((stripChars raw.data).length - 3))⟩) ∧
    (("```" : String).data <+: stripChars raw.data →
      ¬ ("```json" : String).data <+: stripChars raw.data →
      ¬ ("```" : String).data <:+ stripChars raw.data →
      normalizeResponse raw = pyStrip raw ∧
        ("```" : String).data <+: (normalizeResponse raw).data) ∧
    (parse_response "```\n\x7b\"commit_message\": \"a\"\x7d\n```" false =
      ParseResult.malformed) ∧
    (normalizeResponse "x```" = "x") := by
  refine ⟨?_, ?_, rfl, rfl⟩
  · intro hsuf hpre
    obtain ⟨-, hsuf2⟩ := stripChars_of_ticks_suffix (l := raw.data) hsuf
    have hpreb : ("```json" : String).data.isPrefixOf (stripChars raw.data) = false := by
      rw [Bool.eq_false_iff]
      intro hx
      exact hpre ( List.isPrefixOf_iff_prefix.mp hx)
    have hsufb : ("```" : String).data.isSuffixOf (stripChars raw.data) = true :=
      List.isSuffixOf_iff_suffix.mpr hsuf2
    unfold normalizeResponse
    rw [stripFences_trailing hpreb hsufb]
  · intro hstart hpre hnosuf
    have hpreb : ("```json" : String).data.isPrefixOf (stripChars raw.data) = false := by
      rw [Bool.eq_false_iff]
      intro hx
      exact hpre ( List.isPrefixOf_iff_prefix.mp hx)
    have hsufb : ("```" : String).data.isSuffixOf (stripChars raw.data) = false := by
      rw [Bool.eq_false_iff]
      intro hx
      exact hnosuf (List.isSuffixOf_iff_suffix.mp hx)
    have hnorm : normalizeResponse raw = pyStrip raw := by
      unfold normalizeResponse pyStrip
      rw [stripFences_id hpreb hsufb, stripChars_idem]
    refine ⟨hnorm, ?_⟩
    rw [hnorm]
    exact hstart

/-- Witness for C10: an unfenced payload ending in backticks is truncated,
and a bare-fenced payload keeps its leading fence. -/
theorem claim_C10_witness :
    normalizeResponse "abc```" = "abc" ∧ normalizeResponse "``` x" = pyStrip "``` x" :=
  ⟨((claim_C10 "abc```").1 (by decide) (by decide)).trans (by decide),
    ((claim_C10 "``` x").2.1 (by decide) (by decide) (by decide)).1⟩

theorem mainRun_exit_one (a : Args) (c : Config) (w : World)
    (h1 : (mainRun a c w).1 = 1) :
    ∃ r, call_openai w = some r ∧
      ((∃ e, parse_response r a.branch = ParseResult.exn e) ∨
       (∃ msg branch t, parse_response r a.branch = ParseResult.ok msg branch ∧
         execute_git_commands msg branch a w.run = ExecOut.exn t)) := by
  unfold mainRun at h1
  by_cases hinit : a.init = true
  · rw [if_pos hinit] at h1
    simp at h1
  rw [if_neg hinit] at h1
  by_cases hk : pyTruthyOpt c.openai_api_key = true
  swap
  · rw [if_pos hk] at h1
    simp at h1
  rw [if_neg (not_not_intro hk)] at h1
  cases hstat : get_git_status w with
  | none =>
    rw [hstat] at h1
    simp at h1
  | some status =>
    rw [hstat] at h1
    dsimp only at h1
    by_cases hc1 : (a.yes = false ∧ pyLower w.confirm1 ≠ "y")
    · rw [if_pos hc1] at h1
      simp at h1
    rw [if_neg hc1] at h1
    cases hcall : call_openai w with
    | none =>
      rw [hcall] at h1
      simp at h1
    | some r =>
      rw [hcall] at h1
      dsimp only at h1
      cases hparse : parse_response r a.branch with
      | malformed =>
        rw [hparse] at h1
        simp at h1
      | exn e =>
        exact ⟨r, rfl, Or.inl ⟨e, hparse⟩⟩
      | ok msg branch =>
        rw [hparse] at h1
        dsimp only at h1
        cases msg with
        | null => simp at h1
        | bool bv =>
          by_cases hc2 : (a.yes = false ∧ pyLower w.confirm2 ≠ "y")
          · rw [if_pos hc2] at h1
            simp at h1
          · rw [if_neg hc2] at h1
            cases hexec : execute_git_commands (Json.bool bv) branch a w.run with
            | ret ok t =>
              rw [hexec] at h1
              simp at h1
            | exn t =>
              exact ⟨r, rfl, Or.inr ⟨Json.bool bv, branch, t, hparse, hexec⟩⟩
        | num n =>
          by_cases hc2 : (a.yes = false ∧ pyLower w.confirm2 ≠ "y")
          · rw [if_pos hc2] at h1
            simp at h1
          · rw [if_neg hc2] at h1
            cases hexec : execute_git_commands (Json.num n) branch a w.run with
            | ret ok t =>
              rw [hexec] at h1
              simp at h1
            | exn t =>
              exact ⟨r, rfl, Or.inr ⟨Json.num n, branch, t, hparse, hexec⟩⟩
        | fnum lit =>
          by_cases hc2 : (a.yes = false ∧ pyLower w.confirm2 ≠ "y")
          · rw [if_pos hc2] at h1
            simp at h1
          · rw [if_neg hc2] at h1
            cases hexec : execute_git_commands (Json.fnum lit) branch a w.run with
            | ret ok t =>
              rw [hexec] at h1
              simp at h1
            | exn t =>
              exact ⟨r, rfl, Or.inr ⟨Json.fnum lit, branch, t, hparse, hexec⟩⟩
        | str sv =>
          by_cases hc2 : (a.yes = false ∧ pyLower w.confirm2 ≠ "y")
          · rw [if_pos hc2] at h1
            simp at h1
          · rw [if_neg hc2] at h1
            cases hexec : execute_git_commands (Json.str sv) branch a w.run with
            | ret ok t =>
              rw [hexec] at h1
              simp at h1
            | exn t =>
              exact ⟨r, rfl, Or.inr ⟨Json.str sv, branch, t, hparse, hexec⟩⟩
        | arr l =>
          by_cases hc2 : (a.yes = false ∧ pyLower w.confirm2 ≠ "y")
          · rw [if_pos hc2] at h1
            simp at h1
          · rw [if_neg hc2] at h1
            cases hexec : execute_git_commands (Json.arr l) branch a w.run with
            | ret ok t =>
              rw [hexec] at h1
              simp at h1
            | exn t =>
              exact ⟨r, rfl, Or.inr ⟨Json.arr l, branch, t, hparse, hexec⟩⟩
        | obj kvs =>
          by_cases hc2 : (a.yes = false ∧ pyLower w.confirm2 ≠ "y")
          · rw [if_pos hc2] at h1
            simp at h1
          · rw [if_neg hc2] at h1
            cases hexec : execute_git_commands (Json.obj kvs) branch a w.run with
            | ret ok t =>
              rw [hexec] at h1
              simp at h1
            | exn t =>
              exact ⟨r, rfl, Or.inr ⟨Json.obj kvs, branch, t, hparse, hexec⟩⟩

/-- C3 counterexample: with no credential configured — a fatal condition on
which the claim demands a non-zero exit — `main` returns normally and the
process exits with code zero. -/
theorem claim_C3_counterexample :
    mainRun ⟨false, false, true, false, none, none⟩ ⟨none, none, none, none, [], none⟩
      ⟨fun _ => none, none, "", "", true⟩ = (0, []) := rfl

/-- C3 amended: the process exits with code zero on full completion, on
user-declined confirmation, and on every handled fatal condition (not a
repository, missing credential, backend error, malformed JSON, command
failure); the only non-zero exits are unhandled exceptions escaping `main`,
namely a decode success whose object lacks `commit_message` or is not an
object, or a non-string value reaching `subprocess`. -/
theorem claim_C3 (a : Args) (c : Config) (w : World) :
    ((mainRun a c w).1 = 0 ∨ (mainRun a c w).1 = 1) ∧
    ((mainRun a c w).1 = 1 →
      ∃ r, call_openai w = some r ∧
        ((∃ e, parse_response r a.branch = ParseResult.exn e) ∨
         (∃ msg branch t, parse_response r a.branch = ParseResult.ok msg branch ∧
           execute_git_commands msg branch a w.run = ExecOut.exn t))) := by
  constructor
  · unfold mainRun
    repeat' split
    all_goals simp
  · exact mainRun_exit_one a c w

/-- Witness for the amended C3: in a run whose backend reply is JSON without
`commit_message`, the exit code is 1 and the theorem locates the uncaught
exception in the parser. -/
theorem claim_C3_witness :
    ∃ r, call_openai ⟨fun _ => some "", some "\x7b\"other\": 1\x7d", "y", "y", true⟩ = some r ∧
      ((∃ e, parse_response r false = ParseResult.exn e) ∨
       (∃ msg branch t, parse_response r false = ParseResult.ok msg branch ∧
         execute_git_commands msg branch ⟨false, false, true, false, none, none⟩
           (fun _ => some "") = ExecOut.exn t)) :=
  (claim_C3 ⟨false, false, true, false, none, none⟩ ⟨some "k", none, none, none, [], none⟩
    ⟨fun _ => some "", some "\x7b\"other\": 1\x7d", "y", "y", true⟩).2 rfl
